import Mathlib

/-
Verification development for the mikasa.ai agent orchestration core.

Shallow embedding of the Planner / Executor / Iterator / Agent loop
(src/src/agent/planner.ts, src/src/agent/executor.ts,
src/src/agent/iterator.ts, the Agent orchestrator, the agent context
module, the CommandTool, and the codegen HTTP route pair
executeAgentInBackground / executeApprovedPlan from
src/src/server/routes/codegen.ts).

External effects are modelled as explicit oracles:
- the completion API round trip is an Except String String value
  (Except.error m models a thrown error with message m);
- the platform JSON.parse primitive composed with the Plan schema is a
  parameter jsonParse : String -> Option PlanData;
- uuidv4 suffixes used by generateStepId are a parameter uuid : Nat -> String;
- a tool's execute is a function returning Except String ToolExecutionResult,
  where Except.error msg models a thrown exception with message msg;
- child_process exec is a parameter returning Except ExecErr ExecOk.

Timestamps on log entries and the opaque data payload of log entries are
ambient-clock / debugging data and are not modelled; a log entry is its
level and message.  The Agent loop is additionally instrumented with an
event trace (Event) recording, per step index, the Executor dispatch, the
retryWithFix call, and the Executor dispatch performed inside
retryWithFix; this trace is the only addition over the source and does
not influence any computed value.
-/

set_option linter.unusedVariables false
set_option maxRecDepth 10000

namespace Mikasa

/-- Metadata record attached to tool results (base-tool.ts; read by
executor.ts).  The source type is an open string-keyed map; we model the
keys the orchestration core and the CommandTool use. -/
structure ToolMetadata where
  filesModified : Option (List String) := none
  command : Option String := none
  exitCode : Option Nat := none
  stdout : Option String := none
  stderr : Option String := none
  duration : Option Nat := none
deriving DecidableEq, Repr

/-- ToolExecutionResult from base-tool.ts. -/
structure ToolExecutionResult where
  success : Bool
  output : String
  error : Option String := none
  metadata : Option ToolMetadata := none
deriving DecidableEq, Repr

/-- Tool parameters are an opaque map in the source; we model the fields
the embedded CommandTool destructures (command, cwd). -/
structure Params where
  command : Option String := none
  cwd : Option String := none
deriving DecidableEq, Repr

/-- A tool as the Executor sees it: a name and an execute function.
Except.error msg models a thrown exception carrying message msg. -/
structure Tool where
  name : String
  execute : Params → Except String ToolExecutionResult

/-- ExecutionLog entry (types/task.ts), without the ambient timestamp and
the opaque data payload. -/
structure LogEntry where
  level : String
  message : String
deriving DecidableEq, Repr

/-- CommandResult (types/task.ts). -/
structure CommandRecord where
  command : String
  exitCode : Nat
  stdout : String
  stderr : String
  duration : Nat
deriving DecidableEq, Repr

/-- AgentContext from the agent context module. -/
structure AgentContext where
  goal : String
  workingDirectory : String
  filesModified : List String
  commandsRun : List CommandRecord
  logs : List LogEntry
deriving DecidableEq, Repr

/-- createContext; process.cwd() is modelled as the empty string. -/
def createContext (goal : String) (workingDirectory : Option String) : AgentContext :=
  { goal, workingDirectory := workingDirectory.getD "",
    filesModified := [], commandsRun := [], logs := [] }

/-- addLog from the context module (logs are append-only). -/
def addLog (ctx : AgentContext) (level message : String) : AgentContext :=
  { ctx with logs := ctx.logs ++ [{ level, message }] }

/-- The list update performed by addFileModified: push the path only if
it is not already present. -/
def fileInsert (l : List String) (p : String) : List String :=
  if p ∈ l then l else l ++ [p]

/-- addFileModified from the context module. -/
def addFileModified (ctx : AgentContext) (filePath : String) : AgentContext :=
  { ctx with filesModified := fileInsert ctx.filesModified filePath }

/-- addCommandRun from the context module. -/
def addCommandRun (ctx : AgentContext) (result : CommandRecord) : AgentContext :=
  { ctx with commandsRun := ctx.commandsRun ++ [result] }

/-- JavaScript n1 or-else n2 on optional numbers: 0 and undefined are
falsy. -/
def jsOrNat : Option Nat → Nat → Nat
  | some n, d => if n = 0 then d else n
  | none, d => d

/-- JavaScript s1 or-else s2 on optional strings: the empty string and
undefined are falsy. -/
def jsOrStrOpt : Option String → String → String
  | some s, d => if s = "" then d else s
  | none, d => d

/-- JavaScript s1 or-else s2 on strings (empty string falsy). -/
def jsOrStr (s d : String) : String :=
  if s = "" then d else s

/-- Template-literal rendering of a possibly-undefined string. -/
def optStr : Option String → String
  | some s => s
  | none => "undefined"

/-! JavaScript string operations, modelled explicitly over the character
list of the string (the strings this system manipulates are ASCII, for
which these agree with the JS semantics). -/

/-- Whitespace as stripped by String.prototype.trim (ASCII subset). -/
def jsWhitespace (c : Char) : Bool :=
  (c == ' ') || (c == '\t') || (c == '\n') || (c == '\r')

/-- JS s.trim(). -/
def jsTrim (s : String) : String :=
  String.mk (((s.toList.dropWhile jsWhitespace).reverse.dropWhile jsWhitespace).reverse)

/-- JS s.startsWith(pre). -/
def jsStartsWith (s pre : String) : Bool :=
  pre.toList.isPrefixOf s.toList

/-- JS s.endsWith(suf). -/
def jsEndsWith (s suf : String) : Bool :=
  suf.toList.isSuffixOf s.toList

/-- JS s.substring(n): drop the first n characters. -/
def jsDrop (s : String) (n : Nat) : String :=
  String.mk (s.toList.drop n)

/-- JS s.substring(0, s.length - n): drop the last n characters. -/
def jsDropRight (s : String) (n : Nat) : String :=
  String.mk (s.toList.take (s.toList.length - n))

/-- Occurrence of sub anywhere in s, over character lists. -/
def listIncludes : List Char → List Char → Bool
  | s, sub =>
    match s with
    | [] => sub.isEmpty
    | _ :: t => sub.isPrefixOf s || listIncludes t sub

/-- JS s.includes(sub). -/
def jsIncludes (s sub : String) : Bool :=
  listIncludes s.toList sub.toList

/-- ASCII lower-casing of one character. -/
def jsToLowerChar (c : Char) : Char :=
  if 65 ≤ c.toNat && c.toNat ≤ 90 then Char.ofNat (c.toNat + 32) else c

/-- JS s.toLowerCase() (ASCII subset). -/
def jsToLower (s : String) : String :=
  String.mk (s.toList.map jsToLowerChar)

/-- Step status (types/task.ts). -/
inductive StepStatus where
  | pending
  | inProgress
  | completed
  | failed
deriving DecidableEq, Repr

/-- PlanStep (types/task.ts). -/
structure PlanStep where
  stepId : String
  description : String
  tool : String
  params : Params
  dependencies : List String
  status : StepStatus
deriving DecidableEq, Repr

/-- TaskPlan (types/task.ts). -/
structure TaskPlan where
  steps : List PlanStep
  reasoning : String
  estimatedSteps : Nat
deriving DecidableEq, Repr

/-- A thrown MikasaError, identified by its name field (errors.ts sets
this.name in each subclass constructor) and its message. -/
structure MikasaErr where
  name : String
  message : String
deriving DecidableEq, Repr

/-- new AgentError(message) from errors.ts. -/
def agentError (message : String) : MikasaErr :=
  { name := "AgentError", message }

/-- DEFAULT_MAX_ITERATIONS from the shared constants; also the
agent.maxIterations value of the built-in default config. -/
def DEFAULT_MAX_ITERATIONS : Nat := 10

/-- DEFAULT_MAX_RETRIES from the shared constants; also the
agent.maxRetries value of the built-in default config. -/
def DEFAULT_MAX_RETRIES : Nat := 3

/-- Executor.findTool. -/
def findTool (tools : List Tool) (toolName : String) : Option Tool :=
  tools.find? (fun t => t.name == toolName)

namespace Executor

/-- The side-effect bookkeeping block of Executor.executeStep, run only
on a successful result: merge metadata.filesModified into the context and
append a CommandRecord when metadata.command is truthy. -/
def trackSideEffects (md : ToolMetadata) (ctx : AgentContext) : AgentContext :=
  let ctx := (md.filesModified.getD []).foldl addFileModified ctx
  match md.command with
  | some cmd =>
      if cmd = "" then ctx
      else
        addCommandRun ctx
          { command := cmd, exitCode := jsOrNat md.exitCode 0,
            stdout := (md.stdout.getD ""), stderr := (md.stderr.getD ""),
            duration := jsOrNat md.duration 0 }
  | none => ctx

/-- Executor.executeStep (executor.ts lines 17-65).  Always returns a
result; tool-not-found and tool exceptions are converted to failure
results, never propagated. -/
def executeStep (tools : List Tool) (step : PlanStep) (ctx0 : AgentContext) :
    ToolExecutionResult × AgentContext :=
  let ctx := addLog ctx0 "info" ("Executing: " ++ step.description)
  match findTool tools step.tool with
  | none =>
      let err := "Tool not found: " ++ step.tool
      ({ success := false, output := "", error := some err },
       addLog ctx "error" err)
  | some tool =>
      match tool.execute step.params with
      | Except.ok result =>
          if result.success then
            let ctx := addLog ctx "info" ("Step completed: " ++ step.description)
            let ctx :=
              match result.metadata with
              | some md => trackSideEffects md ctx
              | none => ctx
            (result, ctx)
          else
            (result, addLog ctx "error" ("Step failed: " ++ step.description))
      | Except.error msg =>
          let emsg := "Tool execution failed: " ++ msg
          ({ success := false, output := "", error := some emsg },
           addLog ctx "error" emsg)

end Executor

/-- The Iterator's private retryCount map, modelled as a total function
with default 0 (Map.get or-else 0). -/
def IterState : Type := String → Nat

/-- A fresh Iterator's empty retry map. -/
def IterState.empty : IterState := fun _ => 0

namespace Iterator

/-- Iterator.canRetry (iterator.ts lines 19-22). -/
def canRetry (maxRetries : Nat) (retryCount : IterState) (stepId : String) : Bool :=
  decide (retryCount stepId < maxRetries)

/-- The remediation returned by getFixStrategy when it does not fail:
reasoning plus the modified params (none models an absent / undefined
modifiedParams field, in which case the original params are reused). -/
structure FixStrategy where
  reasoning : String
  modifiedParams : Option Params
deriving DecidableEq, Repr

/-- Result bundle of retryWithFix.  didExecute is instrumentation: it
records whether the Executor was invoked on the modified step. -/
structure RetryOut where
  result : ToolExecutionResult
  ctx : AgentContext
  retryCount : IterState
  didExecute : Bool

/-- Iterator.retryWithFix (iterator.ts lines 24-59).  fixOracle abstracts
the whole getFixStrategy round trip (completion API call, fence-strip /
brace-extract parsing, and the modifiedParams-null check): none models
every path on which getFixStrategy returns null or throws, in which case
the original failed result is returned unchanged. -/
def retryWithFix (fixOracle : Option FixStrategy) (maxRetries : Nat)
    (retryCount0 : IterState) (step : PlanStep) (failedResult : ToolExecutionResult)
    (ctx0 : AgentContext) (tools : List Tool) : RetryOut :=
  let n := retryCount0 step.stepId + 1
  let retryCount : IterState := fun k => if k = step.stepId then n else retryCount0 k
  let ctx := addLog ctx0 "info"
    ("Attempting to fix failed step (attempt " ++ toString n ++ "/" ++
      toString maxRetries ++ ")")
  match fixOracle with
  | none => { result := failedResult, ctx, retryCount, didExecute := false }
  | some fix =>
      let ctx := addLog ctx "info" ("Fix strategy: " ++ fix.reasoning)
      let modifiedStep : PlanStep :=
        { step with
          params := fix.modifiedParams.getD step.params,
          description := step.description ++ " (retry with fix)" }
      let r := Executor.executeStep tools modifiedStep ctx
      { result := r.1, ctx := r.2, retryCount, didExecute := true }

end Iterator

/-- One raw step of the model's structured planning output, as consumed
by Planner.createPlan (s.description, s.tool, s.params, s.dependencies). -/
structure RawStep where
  description : String
  tool : String
  params : Params
  dependencies : Option (List String)
deriving DecidableEq, Repr

/-- The parsed planning payload: reasoning plus raw steps. -/
structure PlanData where
  reasoning : String
  steps : List RawStep
deriving DecidableEq, Repr

/-- The code-fence stripping of parsePlanResponse: trim, drop a leading
triple-backtick-json marker (7 chars), drop a remaining leading
triple-backtick (3 chars), drop a trailing triple-backtick (3 chars). -/
def stripFences (response : String) : String :=
  let c := jsTrim response
  let c := if jsStartsWith c "```json" then jsDrop c 7 else c
  let c := if jsStartsWith c "```" then jsDrop c 3 else c
  let c := if jsEndsWith c "```" then jsDropRight c 3 else c
  c

/-- The brace-matched fallback of parsePlanResponse: the regex match from
the first opening brace to the last closing brace of the raw response,
when the last closing brace comes after the first opening brace. -/
def braceExtract (s : String) : Option String :=
  let cs := s.toList
  match cs.findIdx? (fun ch => ch == '\x7b') with
  | none => none
  | some i =>
      match cs.reverse.findIdx? (fun ch => ch == '\x7d') with
      | none => none
      | some rj =>
          let j := cs.length - 1 - rj
          if i < j then some (String.mk ((cs.drop i).take (j - i + 1))) else none

/-- Planner.parsePlanResponse (planner.ts lines 102-129): strict parse of
the fence-stripped trimmed response, then parse of the brace-matched
substring of the raw response; none models the thrown
Failed-to-parse-plan-response error. -/
def parsePlanResponse (jsonParse : String → Option PlanData) (response : String) :
    Option PlanData :=
  match jsonParse (jsTrim (stripFences response)) with
  | some d => some d
  | none =>
      match braceExtract response with
      | some m => jsonParse m
      | none => none

/-- generateStepId from the id-generator module; uuid abstracts the
8-char uuidv4 slice. -/
def generateStepId (uuid : Nat → String) (index : Nat) : String :=
  "step-" ++ toString index ++ "-" ++ uuid index

namespace Planner

/-- The step-construction map of createPlan (planner.ts lines 31-38). -/
def buildSteps (uuid : Nat → String) (raw : List RawStep) : List PlanStep :=
  raw.mapIdx (fun i s =>
    { stepId := generateStepId uuid i, description := s.description, tool := s.tool,
      params := s.params, dependencies := s.dependencies.getD [],
      status := StepStatus.pending })

/-- Planner.createPlan (planner.ts lines 14-50).  llmResponse is the
completion-API round trip (Except.error m models a thrown error with
message m).  Any failure is logged and rethrown as an AgentError with a
Planning-failed message. -/
def createPlan (jsonParse : String → Option PlanData) (uuid : Nat → String)
    (llmResponse : Except String String) (goal : String) (ctx0 : AgentContext) :
    Except MikasaErr TaskPlan × AgentContext :=
  let ctx := addLog ctx0 "info" "Creating execution plan"
  match llmResponse with
  | Except.error e =>
      let ctx := addLog ctx "error" "Failed to create plan"
      (Except.error (agentError ("Planning failed: " ++ e)), ctx)
  | Except.ok text =>
      match parsePlanResponse jsonParse text with
      | none =>
          let ctx := addLog ctx "error" "Failed to create plan"
          (Except.error (agentError "Planning failed: Failed to parse plan response"), ctx)
      | some planData =>
          let plan : TaskPlan :=
            { steps := buildSteps uuid planData.steps,
              reasoning := planData.reasoning,
              estimatedSteps := planData.steps.length }
          let ctx := addLog ctx "info"
            ("Plan created with " ++ toString plan.steps.length ++ " steps")
          (Except.ok plan, ctx)

end Planner

/-- Instrumentation event: per step index, an Executor dispatch from the
Agent loop, a retryWithFix call, or the Executor dispatch performed
inside retryWithFix. -/
inductive Event where
  | dispatch (i : Nat)
  | retryCall (i : Nat)
  | retryExec (i : Nat)
deriving DecidableEq, Repr

/-- The step index an event belongs to. -/
def Event.idx : Event → Nat
  | .dispatch i => i
  | .retryCall i => i
  | .retryExec i => i

/-- AgentConfig (the orchestrator's constructor argument); absent
optional fields are undefined, hence falsy. -/
structure AgentConfig where
  autonomous : Bool := false
  maxIterations : Option Nat := none
  previewMode : Bool := false
  workingDirectory : Option String := none

/-- TaskExecution (types/task.ts), the Agent's return value. -/
structure TaskExecution where
  currentStep : Nat
  completedSteps : List String
  failedSteps : List String
  logs : List LogEntry
  filesModified : List String
  commandsRun : List CommandRecord
  plan : Option TaskPlan
deriving DecidableEq, Repr

/-- Outcome of one iteration of the Agent loop body for one step. -/
structure IterOut where
  step : PlanStep
  result : ToolExecutionResult
  ctx : AgentContext
  retryCount : IterState
  events : List Event

/-- Accumulated state of the Agent execution loop. -/
structure LoopSt where
  ctx : AgentContext
  retryCount : IterState
  completedSteps : List String
  failedSteps : List String
  stepsDone : List PlanStep
  events : List Event

/-- Result of the Agent execution loop: final state, untouched remaining
steps, and the thrown run-level error if any. -/
structure LoopRes where
  st : LoopSt
  rem : List PlanStep
  err : Option MikasaErr

namespace Agent

/-- The tail of the Agent loop body: mark the step completed or failed
and append the corresponding log entry. -/
def stepFinish (step : PlanStep) (result : ToolExecutionResult) (ctx : AgentContext)
    (retryCount : IterState) (events : List Event) : IterOut :=
  if result.success then
    { step := { step with status := StepStatus.completed }, result,
      ctx := addLog ctx "info" ("Step completed: " ++ step.description),
      retryCount, events }
  else
    { step := { step with status := StepStatus.failed }, result,
      ctx := addLog ctx "error" ("Step failed after retries: " ++ step.description),
      retryCount, events }

/-- One iteration of the Agent execution loop for the step at index i:
log, mark in-progress, dispatch to the Executor, consult canRetry on
failure and run at most one retryWithFix pass, then finish. -/
def stepIter (maxRetries : Nat) (tools : List Tool)
    (fixOracle : Option Iterator.FixStrategy) (total i : Nat) (step0 : PlanStep)
    (ctx0 : AgentContext) (retryCount0 : IterState) : IterOut :=
  let ctx := addLog ctx0 "info"
    ("Executing step " ++ toString (i + 1) ++ "/" ++ toString total ++ ": " ++
      step0.description)
  let step := { step0 with status := StepStatus.inProgress }
  let e := Executor.executeStep tools step ctx
  if !e.1.success && Iterator.canRetry maxRetries retryCount0 step.stepId then
    let ctx := addLog e.2 "warn" "Step failed, attempting recovery"
    let r := Iterator.retryWithFix fixOracle maxRetries retryCount0 step e.1 ctx tools
    stepFinish step r.result r.ctx r.retryCount
      ([Event.dispatch i, Event.retryCall i] ++
        (if r.didExecute then [Event.retryExec i] else []))
  else
    stepFinish step e.1 e.2 retryCount0 [Event.dispatch i]

/-- Record a finished step on the loop state: its stepId is pushed onto
completedSteps exactly when it succeeded, onto failedSteps otherwise;
the step (with its final status) and the iteration's events are
appended. -/
def pushStep (st : LoopSt) (o : IterOut) (completed : Bool) : LoopSt :=
  { ctx := o.ctx, retryCount := o.retryCount,
    completedSteps := st.completedSteps ++ (if completed then [o.step.stepId] else []),
    failedSteps := st.failedSteps ++ (if completed then [] else [o.step.stepId]),
    stepsDone := st.stepsDone ++ [o.step],
    events := st.events ++ o.events }

/-- The iteration-ceiling AgentError. -/
def maxIterErr (m : Nat) : MikasaErr :=
  agentError ("Maximum iterations (" ++ toString m ++ ") exceeded")

/-- The for-loop of Agent.execute over the plan steps: record the
outcome of each step, throw on non-autonomous failure, and throw when
the iteration ceiling check (run after the step body) fires. -/
def execLoop (autonomous : Bool) (maxIterations maxRetries : Nat) (tools : List Tool)
    (fixOracle : Nat → Option Iterator.FixStrategy) (total : Nat) :
    List PlanStep → Nat → LoopSt → LoopRes
  | [], _i, st => { st, rem := [], err := none }
  | step :: rest, i, st =>
      let o := stepIter maxRetries tools (fixOracle i) total i step st.ctx st.retryCount
      if o.result.success then
        let st' := pushStep st o true
        if maxIterations ≤ i then
          { st := st', rem := rest, err := some (maxIterErr maxIterations) }
        else
          execLoop autonomous maxIterations maxRetries tools fixOracle total rest (i + 1) st'
      else
        let st' := pushStep st o false
        if !autonomous then
          { st := st', rem := rest,
            err := some (agentError ("Step failed: " ++ optStr o.result.error)) }
        else if maxIterations ≤ i then
          { st := st', rem := rest, err := some (maxIterErr maxIterations) }
        else
          execLoop autonomous maxIterations maxRetries tools fixOracle total rest (i + 1) st'

/-- Instrumented outcome of one Agent.execute run: the created plan, the
steps with their final statuses (processed steps followed by untouched
remaining ones), the final step lists, context, event trace, the thrown
error if any, and the returned TaskExecution if the run returned. -/
structure RunOutcome where
  plan : Option TaskPlan
  steps : List PlanStep
  completedSteps : List String
  failedSteps : List String
  ctx : AgentContext
  events : List Event
  error : Option MikasaErr
  returned : Option TaskExecution

/-- The tail of Agent.execute after the execution loop: rethrow the
loop's error, run the dead post-loop failed-steps check, or return the
TaskExecution, assembling the instrumented outcome either way. -/
def finishRun (autonomous : Bool) (plan : TaskPlan) (res : LoopRes) : RunOutcome :=
  match res.err with
  | some e =>
      let ctx := addLog res.st.ctx "error" "Agent execution failed"
      { plan := some plan, steps := res.st.stepsDone ++ res.rem,
        completedSteps := res.st.completedSteps, failedSteps := res.st.failedSteps,
        ctx, events := res.st.events, error := some e, returned := none }
  | none =>
      if res.st.failedSteps.length > 0 && !autonomous then
        let e := agentError (toString res.st.failedSteps.length ++ " step(s) failed")
        let ctx := addLog res.st.ctx "error" "Agent execution failed"
        { plan := some plan, steps := res.st.stepsDone ++ res.rem,
          completedSteps := res.st.completedSteps, failedSteps := res.st.failedSteps,
          ctx, events := res.st.events, error := some e, returned := none }
      else
        let ctx := addLog res.st.ctx "info" "Agent execution completed"
        let t : TaskExecution :=
          { currentStep := plan.steps.length,
            completedSteps := res.st.completedSteps,
            failedSteps := res.st.failedSteps,
            logs := ctx.logs, filesModified := ctx.filesModified,
            commandsRun := ctx.commandsRun, plan := none }
        { plan := some plan, steps := res.st.stepsDone ++ res.rem,
          completedSteps := res.st.completedSteps, failedSteps := res.st.failedSteps,
          ctx, events := res.st.events, error := none, returned := some t }

/-- Agent.execute, instrumented.  A fresh context and a fresh Iterator
retry map are created per run; the Iterator is constructed with the
default-config maxRetries and the ceiling is config.maxIterations
or-else the default-config maxIterations (JavaScript or, so an explicit
0 also falls back to the default). -/
def executeRun (cfg : AgentConfig) (tools : List Tool)
    (jsonParse : String → Option PlanData) (uuid : Nat → String)
    (llmPlanResponse : Except String String)
    (fixOracle : Nat → Option Iterator.FixStrategy) (goal : String) : RunOutcome :=
  let ctx := createContext goal cfg.workingDirectory
  let maxIterations := jsOrNat cfg.maxIterations DEFAULT_MAX_ITERATIONS
  let ctx := addLog ctx "info" "Starting agent execution"
  let ctx := addLog ctx "info" "Phase 1: Planning"
  match Planner.createPlan jsonParse uuid llmPlanResponse goal ctx with
  | (Except.error e, ctx) =>
      let ctx := addLog ctx "error" "Agent execution failed"
      { plan := none, steps := [], completedSteps := [], failedSteps := [], ctx,
        events := [], error := some e, returned := none }
  | (Except.ok plan, ctx) =>
      if cfg.previewMode then
        let ctx := addLog ctx "info" "Preview mode: returning plan without execution"
        let t : TaskExecution :=
          { currentStep := 0, completedSteps := [], failedSteps := [], logs := ctx.logs,
            filesModified := [], commandsRun := [], plan := some plan }
        { plan := some plan, steps := plan.steps, completedSteps := [], failedSteps := [],
          ctx, events := [], error := none, returned := some t }
      else
        let ctx := addLog ctx "info" "Phase 2: Execution"
        let st0 : LoopSt :=
          { ctx, retryCount := IterState.empty, completedSteps := [], failedSteps := [],
            stepsDone := [], events := [] }
        let res := execLoop cfg.autonomous maxIterations DEFAULT_MAX_RETRIES tools
          fixOracle plan.steps.length plan.steps 0 st0
        finishRun cfg.autonomous plan res

/-- Agent.execute as the caller sees it: the returned TaskExecution, or
the thrown run-level error.  Projects the instrumented outcome; the
unreachable branch can never fire (executeRun always sets exactly one of
error and returned). -/
def execute (cfg : AgentConfig) (tools : List Tool)
    (jsonParse : String → Option PlanData) (uuid : Nat → String)
    (llmPlanResponse : Except String String)
    (fixOracle : Nat → Option Iterator.FixStrategy) (goal : String) :
    Except MikasaErr TaskExecution :=
  let out := executeRun cfg tools jsonParse uuid llmPlanResponse fixOracle goal
  match out.error with
  | some e => Except.error e
  | none =>
      match out.returned with
      | some t => Except.ok t
      | none => Except.error (agentError "unreachable")

end Agent

/-- The resolved output of a child_process exec call. -/
structure ExecOk where
  stdout : String
  stderr : String
  duration : Nat
deriving DecidableEq, Repr

/-- The rejection of a child_process exec call: message, captured
streams, and the exit code when present. -/
structure ExecErr where
  message : String
  stdout : String
  stderr : String
  code : Option Nat
deriving DecidableEq, Repr

/-- The dangerous-command denylist of CommandTool. -/
def dangerousCommands : List String :=
  ["rm -rf /", "rm -rf ~", "rm -rf *", "mkfs", "dd if=", ":()\x7b:|:&\x7d;:",
   "curl | sh", "wget | sh", "shutdown", "reboot", "init 0", "init 6"]

/-- CommandTool.isDangerousCommand. -/
def isDangerousCommand (command : String) : Bool :=
  dangerousCommands.any (fun d => jsIncludes (jsToLower command) (jsToLower d))

namespace CommandTool

/-- CommandTool.execute (the command tool module).  execAsync abstracts
the child_process exec round trip.  The tool catches its own exceptions
(including the deliberate ToolExecutionError for denylisted commands),
so it always returns a result.  Durations on the error paths come from
an expired ambient clock and are modelled as 0; the TypeError path for a
missing command param is not modelled (the params are destructured, so
we read command with an empty-string default). -/
def execute (allowShellCommands : Bool)
    (execAsync : String → String → Except ExecErr ExecOk)
    (baseDir : String) (params : Params) : ToolExecutionResult :=
  let command := params.command.getD ""
  if !allowShellCommands then
    { success := false, output := "",
      error := some "Shell command execution is disabled in agent configuration" }
  else if isDangerousCommand command then
    { success := false, output := "\n",
      error := some ("Command blocked for safety: " ++ command),
      metadata := some { command := some command, exitCode := some 1,
                         stdout := some "", stderr := some "", duration := some 0 } }
  else
    let workingDir := jsOrStrOpt params.cwd baseDir
    match execAsync command workingDir with
    | Except.ok r =>
        { success := true, output := jsTrim (jsOrStr r.stdout r.stderr),
          metadata := some { command := some command, exitCode := some 0,
                             duration := some r.duration,
                             stdout := some (jsTrim r.stdout),
                             stderr := some (jsTrim r.stderr) } }
    | Except.error e =>
        { success := false, output := e.stdout ++ "\n" ++ e.stderr,
          error := some e.message,
          metadata := some { command := some command,
                             exitCode := some (jsOrNat e.code 1),
                             stdout := some e.stdout, stderr := some e.stderr,
                             duration := some 0 } }

/-- CommandTool packaged as a Tool for the Executor (it never throws past
its own boundary, hence always Except.ok). -/
def toTool (allowShellCommands : Bool)
    (execAsync : String → String → Except ExecErr ExecOk) (baseDir : String) : Tool :=
  { name := "command",
    execute := fun p => Except.ok (execute allowShellCommands execAsync baseDir p) }

end CommandTool

/-- The options payload of the codegen route. -/
structure RouteOptions where
  autonomous : Option Bool := none
  maxIterations : Option Nat := none
  previewMode : Option Bool := none
deriving DecidableEq, Repr

/-- The result field stored on a task record by the codegen route. -/
structure TaskResult where
  filesModified : List String
  summary : String
  plan : Option TaskPlan
deriving DecidableEq, Repr

/-- The in-memory task record of the codegen route (the fields the
preview / apply flow reads and writes). -/
structure TaskRec where
  status : String
  prompt : String
  options : RouteOptions
  result : Option TaskResult
  error : Option String
deriving DecidableEq, Repr

/-- The AgentConfig both route helpers build from the task's options:
autonomous or-else false, maxIterations or-else 10, and the given
previewMode. -/
def agentCfgOfOptions (opts : RouteOptions) (previewMode : Bool) : AgentConfig :=
  { autonomous := opts.autonomous.getD false,
    maxIterations := some (jsOrNat opts.maxIterations 10),
    previewMode, workingDirectory := none }

/-- executeAgentInBackground (codegen.ts lines 134-201): run the Agent
with previewMode on unless options.previewMode is explicitly false, and
store the resulting plan on the task for approval.  Also returns the
instrumented run outcome. -/
def executeAgentInBackground (tools : List Tool)
    (jsonParse : String → Option PlanData) (uuid : Nat → String)
    (llmPlanResponse : Except String String)
    (fixOracle : Nat → Option Iterator.FixStrategy)
    (task : TaskRec) : TaskRec × Agent.RunOutcome :=
  let cfg := agentCfgOfOptions task.options (decide (task.options.previewMode ≠ some false))
  let run := Agent.executeRun cfg tools jsonParse uuid llmPlanResponse fixOracle task.prompt
  match run.error, run.returned with
  | none, some result =>
      ({ task with
         status := "completed",
         result := some
           { filesModified := result.filesModified,
             summary :=
               match result.plan with
               | some p =>
                   "Plan created with " ++ toString p.steps.length ++
                     " step(s). Waiting for approval."
               | none =>
                   "Task completed successfully. Modified " ++
                     toString result.filesModified.length ++ " file(s).",
             plan := result.plan } }, run)
  | _, _ =>
      ({ task with
         status := "failed",
         error := run.error.map (fun e => e.message) }, run)

/-- executeApprovedPlan (codegen.ts lines 206-254): construct a new Agent
with previewMode off and call agent.execute(prompt) again — the executed
steps come from a second Planner.createPlan invocation inside that call;
the previously approved plan is only copied back onto the displayed
result.  llmPlanResponse2 is the fresh completion-API round trip of this
second run. -/
def executeApprovedPlan (tools : List Tool)
    (jsonParse : String → Option PlanData) (uuid : Nat → String)
    (llmPlanResponse2 : Except String String)
    (fixOracle : Nat → Option Iterator.FixStrategy)
    (task : TaskRec) : TaskRec × Agent.RunOutcome :=
  let cfg := agentCfgOfOptions task.options false
  let run := Agent.executeRun cfg tools jsonParse uuid llmPlanResponse2 fixOracle task.prompt
  match run.error, run.returned with
  | none, some result =>
      ({ task with
         status := "completed",
         result := some
           { filesModified := result.filesModified,
             summary := "Changes applied successfully. Modified " ++
               toString result.filesModified.length ++ " file(s).",
             plan := task.result.bind (fun r => r.plan) } }, run)
  | _, _ =>
      ({ task with
         status := "failed",
         error := run.error.map (fun e => e.message) }, run)

/-- The apply endpoint (codegen.ts lines 94-129): reject when no plan is
stored or the task is not completed, otherwise hand off to
executeApprovedPlan.  none in the second component models a 400
response with no execution. -/
def applyRoute (tools : List Tool)
    (jsonParse : String → Option PlanData) (uuid : Nat → String)
    (llmPlanResponse2 : Except String String)
    (fixOracle : Nat → Option Iterator.FixStrategy)
    (task : TaskRec) : TaskRec × Option Agent.RunOutcome :=
  if (task.result.bind (fun r => r.plan)).isNone then (task, none)
  else if task.status ≠ "completed" then (task, none)
  else
    let (t, run) := executeApprovedPlan tools jsonParse uuid llmPlanResponse2 fixOracle task
    (t, some run)

/-! ### Concrete test fixtures

Concrete oracles and tool instances used to evaluate the embedding on
explicit inputs.  The jsonParse oracle below is instantiated only at
strings on which its value agrees with the platform JSON.parse composed
with the plan schema: each fixture string is literal JSON whose parse is
the stated PlanData, and the malformed fixture inputs contain no braces
and are not JSON, so every parse attempt on them fails. -/

/-- A file tool whose write succeeds (models a FileTool invocation that
succeeds and reports nothing). -/
def fileToolOk : Tool :=
  { name := "file", execute := fun _ => Except.ok { success := true, output := "ok" } }

/-- A tool whose execute throws, to exercise the Executor's catch. -/
def throwTool : Tool :=
  { name := "boom", execute := fun _ => Except.error "kaput" }

/-- An exec oracle that rejects every command. -/
def execNever : String → String → Except ExecErr ExecOk :=
  fun _ _ => Except.error { message := "spawn failed", stdout := "", stderr := "", code := none }

/-- The CommandTool with shell commands disabled: every execute returns
a failure result with no metadata. -/
def cmdToolOff : Tool := CommandTool.toTool false execNever ""

/-- The CommandTool with shell commands enabled over the rejecting exec
oracle. -/
def cmdToolOn : Tool := CommandTool.toTool true execNever ""

/-- A fixed uuid-slice oracle. -/
def cxUuid : Nat → String := fun _ => "u"

/-- A fix oracle on which every remediation round trip fails to produce
usable modified params. -/
def noFixOracle : Nat → Option Iterator.FixStrategy := fun _ => none

/-- A one-step plan (description A) as literal JSON. -/
def planAJson : String :=
  "\x7b\"reasoning\":\"r\",\"steps\":[\x7b\"description\":\"A\",\"tool\":\"file\",\"params\":\x7b\x7d,\"dependencies\":[]\x7d]\x7d"

/-- A one-step plan (description B) as literal JSON. -/
def planBJson : String :=
  "\x7b\"reasoning\":\"r\",\"steps\":[\x7b\"description\":\"B\",\"tool\":\"file\",\"params\":\x7b\x7d,\"dependencies\":[]\x7d]\x7d"

/-- One JSON step object of the three-step plan fixture. -/
def step3Json (desc tool paramsJson : String) : String :=
  "\x7b\"description\":\"" ++ desc ++ "\",\"tool\":\"" ++ tool ++ "\",\"params\":" ++
    paramsJson ++ ",\"dependencies\":[]\x7d"

/-- A three-step plan (file, command, file) as literal JSON. -/
def plan3Json : String :=
  "\x7b\"reasoning\":\"r\",\"steps\":[" ++
    step3Json "s1" "file" "\x7b\x7d" ++ "," ++
    step3Json "s2" "command" "\x7b\"command\":\"npm test\"\x7d" ++ "," ++
    step3Json "s3" "file" "\x7b\x7d" ++ "]\x7d"

/-- An eleven-step plan of identical file steps as literal JSON. -/
def plan11Json : String :=
  "\x7b\"reasoning\":\"r\",\"steps\":[\x7b\"description\":\"s\",\"tool\":\"file\",\"params\":\x7b\x7d,\"dependencies\":[]\x7d,\x7b\"description\":\"s\",\"tool\":\"file\",\"params\":\x7b\x7d,\"dependencies\":[]\x7d,\x7b\"description\":\"s\",\"tool\":\"file\",\"params\":\x7b\x7d,\"dependencies\":[]\x7d,\x7b\"description\":\"s\",\"tool\":\"file\",\"params\":\x7b\x7d,\"dependencies\":[]\x7d,\x7b\"description\":\"s\",\"tool\":\"file\",\"params\":\x7b\x7d,\"dependencies\":[]\x7d,\x7b\"description\":\"s\",\"tool\":\"file\",\"params\":\x7b\x7d,\"dependencies\":[]\x7d,\x7b\"description\":\"s\",\"tool\":\"file\",\"params\":\x7b\x7d,\"dependencies\":[]\x7d,\x7b\"description\":\"s\",\"tool\":\"file\",\"params\":\x7b\x7d,\"dependencies\":[]\x7d,\x7b\"description\":\"s\",\"tool\":\"file\",\"params\":\x7b\x7d,\"dependencies\":[]\x7d,\x7b\"description\":\"s\",\"tool\":\"file\",\"params\":\x7b\x7d,\"dependencies\":[]\x7d,\x7b\"description\":\"s\",\"tool\":\"file\",\"params\":\x7b\x7d,\"dependencies\":[]\x7d]\x7d"

/-- The parse of planAJson. -/
def planDataA : PlanData :=
  { reasoning := "r",
    steps := [{ description := "A", tool := "file", params := {}, dependencies := some [] }] }

/-- The parse of planBJson. -/
def planDataB : PlanData :=
  { reasoning := "r",
    steps := [{ description := "B", tool := "file", params := {}, dependencies := some [] }] }

/-- The parse of plan3Json. -/
def planData3 : PlanData :=
  { reasoning := "r",
    steps :=
      [{ description := "s1", tool := "file", params := {}, dependencies := some [] },
       { description := "s2", tool := "command",
         params := { command := some "npm test" }, dependencies := some [] },
       { description := "s3", tool := "file", params := {}, dependencies := some [] }] }

/-- The parse of plan11Json. -/
def planData11 : PlanData :=
  { reasoning := "r",
    steps := List.replicate 11
      { description := "s", tool := "file", params := {}, dependencies := some [] } }

/-- The concrete jsonParse oracle: the true parses of the four fixture
plan strings, failure elsewhere (it is only ever evaluated at the
fixture strings themselves and at brace-free non-JSON text). -/
def cxParse : String → Option PlanData := fun s =>
  if s = planAJson then some planDataA
  else if s = planBJson then some planDataB
  else if s = plan3Json then some planData3
  else if s = plan11Json then some planData11
  else none

/-- Non-autonomous execution config (previewMode off). -/
def cfgNonAuto : AgentConfig := { previewMode := false }

/-- Autonomous execution config (previewMode off). -/
def cfgAuto : AgentConfig := { previewMode := false, autonomous := true }

/-- The plan created from planDataA by the Planner with the fixture
uuid oracle. -/
def c1PlanA : TaskPlan :=
  { steps := Planner.buildSteps cxUuid planDataA.steps, reasoning := "r", estimatedSteps := 1 }

/-- The plan created from planDataB by the Planner with the fixture
uuid oracle. -/
def c1PlanB : TaskPlan :=
  { steps := Planner.buildSteps cxUuid planDataB.steps, reasoning := "r", estimatedSteps := 1 }

/-- The plan created from planData3. -/
def c3Plan : TaskPlan :=
  { steps := Planner.buildSteps cxUuid planData3.steps, reasoning := "r", estimatedSteps := 3 }

/-- The plan created from planData11. -/
def c11Plan : TaskPlan :=
  { steps := Planner.buildSteps cxUuid planData11.steps, reasoning := "r", estimatedSteps := 11 }

/-- A fresh codegen task record awaiting its preview run. -/
def c1Task0 : TaskRec :=
  { status := "pending", prompt := "add a LICENSE file", options := {},
    result := none, error := none }

/-- The task after the preview run (options.previewMode left undefined,
hence preview on), whose completion round trip returned planAJson. -/
def c1Preview : TaskRec :=
  (executeAgentInBackground [fileToolOk] cxParse cxUuid (Except.ok planAJson)
    noFixOracle c1Task0).1

/-- The apply call on the approved task, whose second (fresh) completion
round trip returned planBJson instead. -/
def c1Apply : TaskRec × Option Agent.RunOutcome :=
  applyRoute [fileToolOk] cxParse cxUuid (Except.ok planBJson) noFixOracle c1Preview

/-- A non-autonomous run of the three-step plan in which the command
step fails (shell commands disabled) and remediation produces no fix. -/
def c2Run : Agent.RunOutcome :=
  Agent.executeRun cfgNonAuto [fileToolOk, cmdToolOff] cxParse cxUuid
    (Except.ok plan3Json) noFixOracle "fix the tests"

/-- An autonomous run of the same three-step plan. -/
def c3Run : Agent.RunOutcome :=
  Agent.executeRun cfgAuto [fileToolOk, cmdToolOff] cxParse cxUuid
    (Except.ok plan3Json) noFixOracle "fix the tests"

/-- A non-autonomous run of the eleven-step all-success plan, which
trips the default iteration ceiling of 10. -/
def c11Run : Agent.RunOutcome :=
  Agent.executeRun cfgNonAuto [fileToolOk] cxParse cxUuid
    (Except.ok plan11Json) noFixOracle "refactor"

/-- A plan step naming a tool no injected tool provides. -/
def stepGhost : PlanStep :=
  { stepId := "s0", description := "d0", tool := "ghost", params := {},
    dependencies := [], status := StepStatus.pending }

/-- A plan step dispatching to the throwing tool. -/
def stepThrow : PlanStep :=
  { stepId := "s1", description := "d1", tool := "boom", params := {},
    dependencies := [], status := StepStatus.pending }

/-- A command step whose command is on the safety denylist. -/
def stepDanger : PlanStep :=
  { stepId := "s2", description := "d2", tool := "command",
    params := { command := some "shutdown" }, dependencies := [],
    status := StepStatus.pending }

/-- An empty fixture context. -/
def emptyCtx : AgentContext := createContext "g" none

/-- n successive retryWithFix invocations for the same step against one
Iterator retry map, starting from a fresh Iterator. -/
def retryNTimes (fix : Option Iterator.FixStrategy) (maxR : Nat) (step : PlanStep)
    (failedResult : ToolExecutionResult) (ctx : AgentContext) (tools : List Tool) :
    Nat → IterState
  | 0 => IterState.empty
  | n + 1 =>
      (Iterator.retryWithFix fix maxR (retryNTimes fix maxR step failedResult ctx tools n)
        step failedResult ctx tools).retryCount

end Mikasa

namespace Mikasa

/-! ### Basic lemmas about the context and the Executor -/

lemma addLog_filesModified (ctx : AgentContext) (l m : String) :
    (addLog ctx l m).filesModified = ctx.filesModified := rfl

lemma addLog_commandsRun (ctx : AgentContext) (l m : String) :
    (addLog ctx l m).commandsRun = ctx.commandsRun := rfl

lemma fileInsert_nodup {l : List String} (h : l.Nodup) (p : String) :
    (fileInsert l p).Nodup := by
  unfold fileInsert
  split
  · exact h
  · rename_i hp
    rw [List.nodup_append]
    refine ⟨h, List.nodup_singleton p, ?_⟩
    intro a ha hb
    simp only [List.mem_singleton] at hb
    exact hp (hb ▸ ha)

lemma foldl_fileInsert_nodup (ps : List String) :
    ∀ {l : List String}, l.Nodup → (ps.foldl fileInsert l).Nodup := by
  induction ps with
  | nil => intro l h; simpa using h
  | cons p ps ih =>
      intro l h
      simpa using ih (fileInsert_nodup h p)

lemma foldl_addFileModified_filesModified (ps : List String) :
    ∀ ctx : AgentContext,
      (ps.foldl addFileModified ctx).filesModified = ps.foldl fileInsert ctx.filesModified := by
  induction ps with
  | nil => intro ctx; rfl
  | cons p ps ih => intro ctx; simpa using ih (addFileModified ctx p)

lemma trackSideEffects_filesModified (md : ToolMetadata) (ctx : AgentContext) :
    (Executor.trackSideEffects md ctx).filesModified =
      (md.filesModified.getD []).foldl fileInsert ctx.filesModified := by
  unfold Executor.trackSideEffects
  cases md.command with
  | none => simpa using foldl_addFileModified_filesModified _ ctx
  | some cmd =>
      by_cases hc : cmd = "" <;>
        simp [hc, addCommandRun, foldl_addFileModified_filesModified _ ctx]

lemma trackSideEffects_nodup (md : ToolMetadata) {ctx : AgentContext}
    (h : ctx.filesModified.Nodup) :
    (Executor.trackSideEffects md ctx).filesModified.Nodup := by
  rw [trackSideEffects_filesModified]
  exact foldl_fileInsert_nodup _ h

lemma executeStep_nodup (tools : List Tool) (step : PlanStep) {ctx : AgentContext}
    (h : ctx.filesModified.Nodup) :
    (Executor.executeStep tools step ctx).2.filesModified.Nodup := by
  simp only [Executor.executeStep]
  split
  · simpa [addLog] using h
  · split
    · split
      · split
        · exact trackSideEffects_nodup _ (by simpa [addLog] using h)
        · simpa [addLog] using h
      · simpa [addLog] using h
    · simpa [addLog] using h

lemma retryWithFix_nodup (fixOracle : Option Iterator.FixStrategy) (maxRetries : Nat)
    (rc : IterState) (step : PlanStep) (fr : ToolExecutionResult) {ctx : AgentContext}
    (tools : List Tool) (h : ctx.filesModified.Nodup) :
    (Iterator.retryWithFix fixOracle maxRetries rc step fr ctx tools).ctx.filesModified.Nodup := by
  unfold Iterator.retryWithFix
  cases fixOracle with
  | none => simpa [addLog] using h
  | some fix =>
      exact executeStep_nodup tools _ (by simpa [addLog] using h)

lemma retryWithFix_retryCount (fixOracle : Option Iterator.FixStrategy) (maxRetries : Nat)
    (rc : IterState) (step : PlanStep) (fr : ToolExecutionResult) (ctx : AgentContext)
    (tools : List Tool) :
    (Iterator.retryWithFix fixOracle maxRetries rc step fr ctx tools).retryCount =
      fun k => if k = step.stepId then rc step.stepId + 1 else rc k := by
  unfold Iterator.retryWithFix
  cases fixOracle <;> rfl

end Mikasa

namespace Mikasa

/-! ### Lemmas about one loop iteration -/

lemma stepFinish_stepId (s : PlanStep) (r : ToolExecutionResult) (c : AgentContext)
    (rc : IterState) (ev : List Event) :
    (Agent.stepFinish s r c rc ev).step.stepId = s.stepId := by
  unfold Agent.stepFinish
  split <;> rfl

lemma stepFinish_events (s : PlanStep) (r : ToolExecutionResult) (c : AgentContext)
    (rc : IterState) (ev : List Event) :
    (Agent.stepFinish s r c rc ev).events = ev := by
  unfold Agent.stepFinish
  split <;> rfl

lemma stepFinish_result (s : PlanStep) (r : ToolExecutionResult) (c : AgentContext)
    (rc : IterState) (ev : List Event) :
    (Agent.stepFinish s r c rc ev).result = r := by
  unfold Agent.stepFinish
  split <;> rfl

lemma stepFinish_status (s : PlanStep) (r : ToolExecutionResult) (c : AgentContext)
    (rc : IterState) (ev : List Event) :
    (Agent.stepFinish s r c rc ev).step.status =
      (if r.success then StepStatus.completed else StepStatus.failed) := by
  unfold Agent.stepFinish
  split <;> simp_all

lemma stepFinish_nodup (s : PlanStep) (r : ToolExecutionResult) {c : AgentContext}
    (rc : IterState) (ev : List Event) (h : c.filesModified.Nodup) :
    (Agent.stepFinish s r c rc ev).ctx.filesModified.Nodup := by
  unfold Agent.stepFinish
  split <;> simpa [addLog] using h

lemma stepIter_stepId (maxR : Nat) (tools : List Tool) (fix : Option Iterator.FixStrategy)
    (total i : Nat) (step0 : PlanStep) (ctx0 : AgentContext) (rc0 : IterState) :
    (Agent.stepIter maxR tools fix total i step0 ctx0 rc0).step.stepId = step0.stepId := by
  simp only [Agent.stepIter]
  split <;> rw [stepFinish_stepId]

lemma stepIter_status (maxR : Nat) (tools : List Tool) (fix : Option Iterator.FixStrategy)
    (total i : Nat) (step0 : PlanStep) (ctx0 : AgentContext) (rc0 : IterState) :
    (Agent.stepIter maxR tools fix total i step0 ctx0 rc0).step.status =
      (if (Agent.stepIter maxR tools fix total i step0 ctx0 rc0).result.success
        then StepStatus.completed else StepStatus.failed) := by
  simp only [Agent.stepIter]
  split <;> rw [stepFinish_status, stepFinish_result]

lemma stepIter_events_cases (maxR : Nat) (tools : List Tool)
    (fix : Option Iterator.FixStrategy) (total i : Nat) (step0 : PlanStep)
    (ctx0 : AgentContext) (rc0 : IterState) :
    (Agent.stepIter maxR tools fix total i step0 ctx0 rc0).events = [Event.dispatch i] ∨
    (Agent.stepIter maxR tools fix total i step0 ctx0 rc0).events
      = [Event.dispatch i, Event.retryCall i] ∨
    (Agent.stepIter maxR tools fix total i step0 ctx0 rc0).events
      = [Event.dispatch i, Event.retryCall i, Event.retryExec i] := by
  simp only [Agent.stepIter]
  split
  · rw [stepFinish_events]
    split
    · right; right; rfl
    · right; left; rfl
  · left; rw [stepFinish_events]

lemma stepIter_events_idx (maxR : Nat) (tools : List Tool)
    (fix : Option Iterator.FixStrategy) (total i : Nat) (step0 : PlanStep)
    (ctx0 : AgentContext) (rc0 : IterState) :
    ∀ e ∈ (Agent.stepIter maxR tools fix total i step0 ctx0 rc0).events, e.idx = i := by
  rcases stepIter_events_cases maxR tools fix total i step0 ctx0 rc0 with h | h | h <;>
    rw [h] <;> intro e he <;> simp at he <;>
    rcases he with rfl | rfl | rfl <;> rfl

lemma stepIter_count_le (maxR : Nat) (tools : List Tool)
    (fix : Option Iterator.FixStrategy) (total i : Nat) (step0 : PlanStep)
    (ctx0 : AgentContext) (rc0 : IterState) (e : Event) :
    (Agent.stepIter maxR tools fix total i step0 ctx0 rc0).events.count e ≤ 1 := by
  rcases stepIter_events_cases maxR tools fix total i step0 ctx0 rc0 with h | h | h <;>
    rw [h] <;> exact List.nodup_iff_count_le_one.mp (by simp) e

lemma stepIter_dispatch_count (maxR : Nat) (tools : List Tool)
    (fix : Option Iterator.FixStrategy) (total i : Nat) (step0 : PlanStep)
    (ctx0 : AgentContext) (rc0 : IterState) :
    (Agent.stepIter maxR tools fix total i step0 ctx0 rc0).events.count (Event.dispatch i)
      = 1 := by
  rcases stepIter_events_cases maxR tools fix total i step0 ctx0 rc0 with h | h | h <;>
    rw [h] <;> simp [List.count_cons]

lemma stepIter_count_ne (maxR : Nat) (tools : List Tool)
    (fix : Option Iterator.FixStrategy) (total i : Nat) (step0 : PlanStep)
    (ctx0 : AgentContext) (rc0 : IterState) (e : Event) (hne : e.idx ≠ i) :
    (Agent.stepIter maxR tools fix total i step0 ctx0 rc0).events.count e = 0 := by
  rw [List.count_eq_zero]
  intro hmem
  exact hne (stepIter_events_idx maxR tools fix total i step0 ctx0 rc0 e hmem)

lemma stepIter_nodup (maxR : Nat) (tools : List Tool) (fix : Option Iterator.FixStrategy)
    (total i : Nat) (step0 : PlanStep) {ctx0 : AgentContext} (rc0 : IterState)
    (h : ctx0.filesModified.Nodup) :
    (Agent.stepIter maxR tools fix total i step0 ctx0 rc0).ctx.filesModified.Nodup := by
  simp only [Agent.stepIter]
  split
  · refine stepFinish_nodup _ _ _ _ ?_
    refine retryWithFix_nodup _ _ _ _ _ _ ?_
    have h1 : (addLog ctx0 "info" ("Executing step " ++ toString (i + 1) ++ "/" ++
        toString total ++ ": " ++ step0.description)).filesModified.Nodup := by
      simpa [addLog] using h
    have h2 := executeStep_nodup tools { step0 with status := StepStatus.inProgress } h1
    simpa [addLog] using h2
  · refine stepFinish_nodup _ _ _ _ ?_
    exact executeStep_nodup tools _ (by simpa [addLog] using h)

end Mikasa

namespace Mikasa

/-! ### Lemmas about the execution loop -/

lemma pushStep_events (st : LoopSt) (o : IterOut) (c : Bool) :
    (Agent.pushStep st o c).events = st.events ++ o.events := rfl

lemma pushStep_stepsDone (st : LoopSt) (o : IterOut) (c : Bool) :
    (Agent.pushStep st o c).stepsDone = st.stepsDone ++ [o.step] := rfl

lemma execLoop_nil (a : Bool) (mI mR : Nat) (tools : List Tool)
    (fix : Nat → Option Iterator.FixStrategy) (total i : Nat) (st : LoopSt) :
    Agent.execLoop a mI mR tools fix total [] i st = { st, rem := [], err := none } := rfl

lemma loop_events_spec (a : Bool) (mI mR : Nat) (tools : List Tool)
    (fix : Nat → Option Iterator.FixStrategy) (total : Nat) :
    ∀ (pending : List PlanStep) (i : Nat) (st : LoopSt),
      ∃ tl, (Agent.execLoop a mI mR tools fix total pending i st).st.events = st.events ++ tl
        ∧ ∀ e ∈ tl, i ≤ e.idx ∧ (i ≤ mI → e.idx ≤ mI) := by
  intro pending
  induction pending with
  | nil =>
      intro i st
      exact ⟨[], by simp [execLoop_nil], by simp⟩
  | cons step rest ih =>
      intro i st
      simp only [Agent.execLoop]
      set o := Agent.stepIter mR tools (fix i) total i step st.ctx st.retryCount with ho
      have hidx : ∀ e ∈ o.events, e.idx = i :=
        stepIter_events_idx mR tools (fix i) total i step st.ctx st.retryCount
      split
      · split
      -- success, ceiling throw
        · refine ⟨o.events, by rw [pushStep_events], ?_⟩
          intro e he
          have h := hidx e he
          exact ⟨by omega, fun hmi => by omega⟩
      -- success, recurse
        · rename_i hlt
          obtain ⟨tl, htl, hb⟩ := ih (i + 1) (Agent.pushStep st o true)
          refine ⟨o.events ++ tl, ?_, ?_⟩
          · rw [htl, pushStep_events, List.append_assoc]
          · intro e he
            rcases List.mem_append.mp he with h1 | h2
            · have h := hidx e h1
              exact ⟨by omega, fun hmi => by omega⟩
            · obtain ⟨hge, hle⟩ := hb e h2
              exact ⟨by omega, fun _ => hle (by omega)⟩
      · split
      -- failure, non-autonomous throw
        · refine ⟨o.events, by rw [pushStep_events], ?_⟩
          intro e he
          have h := hidx e he
          exact ⟨by omega, fun hmi => by omega⟩
        · split
        -- failure, ceiling throw
          · refine ⟨o.events, by rw [pushStep_events], ?_⟩
            intro e he
            have h := hidx e he
            exact ⟨by omega, fun hmi => by omega⟩
        -- failure, autonomous recurse
          · rename_i hlt
            obtain ⟨tl, htl, hb⟩ := ih (i + 1) (Agent.pushStep st o false)
            refine ⟨o.events ++ tl, ?_, ?_⟩
            · rw [htl, pushStep_events, List.append_assoc]
            · intro e he
              rcases List.mem_append.mp he with h1 | h2
              · have h := hidx e h1
                exact ⟨by omega, fun hmi => by omega⟩
              · obtain ⟨hge, hle⟩ := hb e h2
                exact ⟨by omega, fun _ => hle (by omega)⟩

end Mikasa

namespace Mikasa

lemma loop_rem_mem (a : Bool) (mI mR : Nat) (tools : List Tool)
    (fix : Nat → Option Iterator.FixStrategy) (total : Nat) :
    ∀ (pending : List PlanStep) (i : Nat) (st : LoopSt),
      ∀ s ∈ (Agent.execLoop a mI mR tools fix total pending i st).rem, s ∈ pending := by
  intro pending
  induction pending with
  | nil => intro i st s hs; simp [execLoop_nil] at hs
  | cons step rest ih =>
      intro i st s hs
      simp only [Agent.execLoop] at hs
      split at hs
      · split at hs
        · exact List.mem_cons_of_mem step hs
        · exact List.mem_cons_of_mem step (ih (i + 1) _ s hs)
      · split at hs
        · exact List.mem_cons_of_mem step hs
        · split at hs
          · exact List.mem_cons_of_mem step hs
          · exact List.mem_cons_of_mem step (ih (i + 1) _ s hs)

lemma loop_idx_lt_done (a : Bool) (mI mR : Nat) (tools : List Tool)
    (fix : Nat → Option Iterator.FixStrategy) (total : Nat) :
    ∀ (pending : List PlanStep) (i : Nat) (st : LoopSt),
      st.stepsDone.length = i → (∀ e ∈ st.events, e.idx < i) →
      ∀ e ∈ (Agent.execLoop a mI mR tools fix total pending i st).st.events,
        e.idx < (Agent.execLoop a mI mR tools fix total pending i st).st.stepsDone.length := by
  intro pending
  induction pending with
  | nil =>
      intro i st hlen hev e he
      simp only [execLoop_nil] at he ⊢
      exact hlen ▸ hev e he
  | cons step rest ih =>
      intro i st hlen hev
      simp only [Agent.execLoop]
      set o := Agent.stepIter mR tools (fix i) total i step st.ctx st.retryCount with ho
      have hidx : ∀ e ∈ o.events, e.idx = i :=
        stepIter_events_idx mR tools (fix i) total i step st.ctx st.retryCount
      have hterm : ∀ c : Bool, ∀ e ∈ (Agent.pushStep st o c).events,
          e.idx < (Agent.pushStep st o c).stepsDone.length := by
        intro c e he
        rw [pushStep_events] at he
        rw [pushStep_stepsDone, List.length_append, List.length_singleton, hlen]
        rcases List.mem_append.mp he with h1 | h1
        · have := hev e h1; omega
        · have := hidx e h1; omega
      have hrec : ∀ c : Bool,
          (Agent.pushStep st o c).stepsDone.length = i + 1 ∧
          (∀ e ∈ (Agent.pushStep st o c).events, e.idx < i + 1) := by
        intro c
        constructor
        · rw [pushStep_stepsDone, List.length_append, List.length_singleton, hlen]
        · intro e he
          rw [pushStep_events] at he
          rcases List.mem_append.mp he with h1 | h1
          · have := hev e h1; omega
          · have := hidx e h1; omega
      split
      · split
        · exact hterm true
        · exact ih (i + 1) _ (hrec true).1 (hrec true).2
      · split
        · exact hterm false
        · split
          · exact hterm false
          · exact ih (i + 1) _ (hrec false).1 (hrec false).2

lemma loop_nodup (a : Bool) (mI mR : Nat) (tools : List Tool)
    (fix : Nat → Option Iterator.FixStrategy) (total : Nat) :
    ∀ (pending : List PlanStep) (i : Nat) (st : LoopSt),
      st.ctx.filesModified.Nodup →
      (Agent.execLoop a mI mR tools fix total pending i st).st.ctx.filesModified.Nodup := by
  intro pending
  induction pending with
  | nil => intro i st h; simpa [execLoop_nil] using h
  | cons step rest ih =>
      intro i st h
      simp only [Agent.execLoop]
      set o := Agent.stepIter mR tools (fix i) total i step st.ctx st.retryCount with ho
      have hnd : ∀ c : Bool, (Agent.pushStep st o c).ctx.filesModified.Nodup := by
        intro c
        exact stepIter_nodup mR tools (fix i) total i step st.retryCount h
      split
      · split
        · exact hnd true
        · exact ih (i + 1) _ (hnd true)
      · split
        · exact hnd false
        · split
          · exact hnd false
          · exact ih (i + 1) _ (hnd false)

end Mikasa

namespace Mikasa

lemma dropLast_append_single {α : Type} (l : List α) (a : α) :
    (l ++ [a]).dropLast = l := by
  simp

lemma loop_count_le (a : Bool) (mI mR : Nat) (tools : List Tool)
    (fix : Nat → Option Iterator.FixStrategy) (total : Nat) :
    ∀ (pending : List PlanStep) (i : Nat) (st : LoopSt) (e : Event),
      (Agent.execLoop a mI mR tools fix total pending i st).st.events.count e ≤
        st.events.count e + 1 := by
  intro pending
  induction pending with
  | nil => intro i st e; simp [execLoop_nil]
  | cons step rest ih =>
      intro i st e
      simp only [Agent.execLoop]
      set o := Agent.stepIter mR tools (fix i) total i step st.ctx st.retryCount with ho
      have hcnt : o.events.count e ≤ 1 :=
        stepIter_count_le mR tools (fix i) total i step st.ctx st.retryCount e
      have hterm : ∀ c : Bool, (Agent.pushStep st o c).events.count e ≤
          st.events.count e + 1 := by
        intro c
        rw [pushStep_events, List.count_append]
        omega
      have hrec : ∀ c : Bool,
          (Agent.execLoop a mI mR tools fix total rest (i + 1)
            (Agent.pushStep st o c)).st.events.count e ≤ st.events.count e + 1 := by
        intro c
        by_cases hei : e.idx ≤ i
        · obtain ⟨tl, htl, hb⟩ :=
            loop_events_spec a mI mR tools fix total rest (i + 1) (Agent.pushStep st o c)
          rw [htl, List.count_append, pushStep_events, List.count_append]
          have htl0 : tl.count e = 0 := by
            rw [List.count_eq_zero]
            intro hmem
            have := (hb e hmem).1
            omega
          omega
        · have h0 : o.events.count e = 0 :=
            stepIter_count_ne mR tools (fix i) total i step st.ctx st.retryCount e
              (by omega)
          have := ih (i + 1) (Agent.pushStep st o c) e
          rw [pushStep_events, List.count_append] at this
          omega
      split
      · split
        · exact hterm true
        · exact hrec true
      · split
        · exact hterm false
        · split
          · exact hterm false
          · exact hrec false

lemma loop_nonauto_dropLast (mI mR : Nat) (tools : List Tool)
    (fix : Nat → Option Iterator.FixStrategy) (total : Nat) :
    ∀ (pending : List PlanStep) (i : Nat) (st : LoopSt),
      (∀ s ∈ st.stepsDone, s.status = StepStatus.completed) →
      ∀ s ∈ (Agent.execLoop false mI mR tools fix total pending i st).st.stepsDone.dropLast,
        s.status = StepStatus.completed := by
  intro pending
  induction pending with
  | nil =>
      intro i st hdone s hs
      simp only [execLoop_nil] at hs
      exact hdone s (List.dropLast_sublist st.stepsDone |>.subset hs)
  | cons step rest ih =>
      intro i st hdone
      simp only [Agent.execLoop]
      set o := Agent.stepIter mR tools (fix i) total i step st.ctx st.retryCount with ho
      have hterm : ∀ c : Bool,
          ∀ s ∈ (Agent.pushStep st o c).stepsDone.dropLast,
            s.status = StepStatus.completed := by
        intro c s hs
        rw [pushStep_stepsDone, dropLast_append_single] at hs
        exact hdone s hs
      split
      · rename_i hsucc
        split
        · exact hterm true
        · refine ih (i + 1) _ ?_
          intro s hs
          rw [pushStep_stepsDone] at hs
          rcases List.mem_append.mp hs with h1 | h1
          · exact hdone s h1
          · rw [List.mem_singleton] at h1
            subst h1
            rw [stepIter_status, hsucc]
            rfl
      · split
        · exact hterm false
        · rename_i hna
          simp at hna

lemma loop_overflow (a : Bool) (mI mR : Nat) (tools : List Tool)
    (fix : Nat → Option Iterator.FixStrategy) (total : Nat) :
    ∀ (pending : List PlanStep) (i : Nat) (st : LoopSt),
      pending ≠ [] → mI < i + pending.length →
      ∃ er, (Agent.execLoop a mI mR tools fix total pending i st).err = some er ∧
        er.name = "AgentError" := by
  intro pending
  induction pending with
  | nil => intro i st hne; exact absurd rfl hne
  | cons step rest ih =>
      intro i st _hne hb
      rw [List.length_cons] at hb
      simp only [Agent.execLoop]
      split
      · split
        · exact ⟨_, rfl, rfl⟩
        · rename_i hlt
          rcases rest with _ | ⟨r, rs⟩
          · exfalso
            simp only [List.length_nil] at hb
            omega
          · exact ih (i + 1) _ (by simp) (by simp only [List.length_cons] at hb ⊢; omega)
      · split
        · exact ⟨_, rfl, rfl⟩
        · split
          · exact ⟨_, rfl, rfl⟩
          · rename_i hlt
            rcases rest with _ | ⟨r, rs⟩
            · exfalso
              simp only [List.length_nil] at hb
              omega
            · exact ih (i + 1) _ (by simp) (by simp only [List.length_cons] at hb ⊢; omega)

end Mikasa

namespace Mikasa

lemma loop_auto_spec (mI mR : Nat) (tools : List Tool)
    (fix : Nat → Option Iterator.FixStrategy) (total : Nat) :
    ∀ (pending : List PlanStep) (i : Nat) (st : LoopSt) (res : LoopRes),
      Agent.execLoop true mI mR tools fix total pending i st = res →
      i + pending.length ≤ mI →
      res.err = none ∧ res.rem = [] ∧
      res.st.completedSteps.length + res.st.failedSteps.length =
        st.completedSteps.length + st.failedSteps.length + pending.length ∧
      (∀ s : String,
        res.st.completedSteps.count s + res.st.failedSteps.count s =
          st.completedSteps.count s + st.failedSteps.count s +
            (pending.map PlanStep.stepId).count s) ∧
      (∀ j, i ≤ j → j < i + pending.length →
        res.st.events.count (Event.dispatch j) = st.events.count (Event.dispatch j) + 1) := by
  intro pending
  induction pending with
  | nil =>
      intro i st res hres hb
      rw [execLoop_nil] at hres
      subst hres
      refine ⟨rfl, rfl, by simp, by simp, ?_⟩
      intro j hj1 hj2
      simp only [List.length_nil] at hj2
      omega
  | cons step rest ih =>
      intro i st res hres hb
      rw [List.length_cons] at hb
      simp only [Agent.execLoop] at hres
      set o := Agent.stepIter mR tools (fix i) total i step st.ctx st.retryCount with ho
      have hid : o.step.stepId = step.stepId :=
        stepIter_stepId mR tools (fix i) total i step st.ctx st.retryCount
      split at hres
      · -- success
        split at hres
        · exfalso
          rename_i hle
          omega
        · rename_i hsucc hlt
          have hb' : (i + 1) + rest.length ≤ mI := by omega
          obtain ⟨he, hr, hlen, hcnt, hdisp⟩ := ih (i + 1) (Agent.pushStep st o true) res hres hb'
          have hclen : (Agent.pushStep st o true).completedSteps.length =
              st.completedSteps.length + 1 := by simp [Agent.pushStep]
          have hflen : (Agent.pushStep st o true).failedSteps.length =
              st.failedSteps.length := by simp [Agent.pushStep]
          refine ⟨he, hr, by simp only [List.length_cons]; omega, ?_, ?_⟩
          · intro s
            have hc := hcnt s
            simp only [Agent.pushStep, if_true, List.append_nil, List.count_append,
              List.count_singleton, hid] at hc
            simp only [List.map_cons, List.count_cons]
            rw [List.count_eq_countP, List.count_eq_countP] at *
            omega
          · intro j hj1 hj2
            simp only [List.length_cons] at hj2
            by_cases hji : j = i
            · subst hji
              obtain ⟨tl, htl, hbnd⟩ :=
                loop_events_spec true mI mR tools fix total rest (j + 1) (Agent.pushStep st o true)
              rw [hres] at htl
              rw [htl, List.count_append, pushStep_events, List.count_append]
              have htl0 : tl.count (Event.dispatch j) = 0 := by
                rw [List.count_eq_zero]
                intro hmem
                have := (hbnd _ hmem).1
                simp only [Event.idx] at this
                omega
              have hone : o.events.count (Event.dispatch j) = 1 :=
                stepIter_dispatch_count mR tools (fix j) total j step st.ctx st.retryCount
              omega
            · have hd := hdisp j (by omega) (by omega)
              have h0 : o.events.count (Event.dispatch j) = 0 :=
                stepIter_count_ne mR tools (fix i) total i step st.ctx st.retryCount _
                  (by simp only [Event.idx]; omega)
              rw [pushStep_events, List.count_append] at hd
              omega
      · -- failure: in autonomous mode the non-autonomous throw is dead
        split at hres
        · rename_i hna
          simp at hna
        · split at hres
          · exfalso
            rename_i hle
            omega
          · rename_i hfail hna hlt
            have hb' : (i + 1) + rest.length ≤ mI := by omega
            obtain ⟨he, hr, hlen, hcnt, hdisp⟩ :=
              ih (i + 1) (Agent.pushStep st o false) res hres hb'
            have hclen : (Agent.pushStep st o false).completedSteps.length =
                st.completedSteps.length := by simp [Agent.pushStep]
            have hflen : (Agent.pushStep st o false).failedSteps.length =
                st.failedSteps.length + 1 := by simp [Agent.pushStep]
            refine ⟨he, hr, by simp only [List.length_cons]; omega, ?_, ?_⟩
            · intro s
              have hc := hcnt s
              simp only [Agent.pushStep, if_false, List.append_nil, List.count_append,
                List.count_singleton, hid, Bool.false_eq_true, ite_false] at hc
              simp only [List.map_cons, List.count_cons]
              rw [List.count_eq_countP, List.count_eq_countP] at *
              omega
            · intro j hj1 hj2
              simp only [List.length_cons] at hj2
              by_cases hji : j = i
              · subst hji
                obtain ⟨tl, htl, hbnd⟩ :=
                  loop_events_spec true mI mR tools fix total rest (j + 1)
                    (Agent.pushStep st o false)
                rw [hres] at htl
                rw [htl, List.count_append, pushStep_events, List.count_append]
                have htl0 : tl.count (Event.dispatch j) = 0 := by
                  rw [List.count_eq_zero]
                  intro hmem
                  have := (hbnd _ hmem).1
                  simp only [Event.idx] at this
                  omega
                have hone : o.events.count (Event.dispatch j) = 1 :=
                  stepIter_dispatch_count mR tools (fix j) total j step st.ctx st.retryCount
                omega
              · have hd := hdisp j (by omega) (by omega)
                have h0 : o.events.count (Event.dispatch j) = 0 :=
                  stepIter_count_ne mR tools (fix i) total i step st.ctx st.retryCount _
                    (by simp only [Event.idx]; omega)
                rw [pushStep_events, List.count_append] at hd
                omega

end Mikasa

namespace Mikasa

/-! ### Lemmas about the Planner -/

lemma buildSteps_status (u : Nat → String) (raw : List RawStep) :
    ∀ s ∈ Planner.buildSteps u raw, s.status = StepStatus.pending := by
  intro s hs
  unfold Planner.buildSteps at hs
  rw [List.mapIdx_eq_enum_map] at hs
  obtain ⟨p, hp, rfl⟩ := List.mem_map.mp hs
  rfl

lemma createPlan_fst_ctx_indep (jp : String → Option PlanData) (u : Nat → String)
    (llm : Except String String) (goal : String) (c1 c2 : AgentContext) :
    (Planner.createPlan jp u llm goal c1).1 = (Planner.createPlan jp u llm goal c2).1 := by
  cases llm with
  | error e => rfl
  | ok text =>
      simp only [Planner.createPlan]
      cases parsePlanResponse jp text <;> rfl

lemma createPlan_llm_error (jp : String → Option PlanData) (u : Nat → String)
    (m goal : String) (c : AgentContext) :
    (Planner.createPlan jp u (Except.error m) goal c).1 =
      Except.error (agentError ("Planning failed: " ++ m)) := rfl

lemma createPlan_parse_none (jp : String → Option PlanData) (u : Nat → String)
    (text goal : String) (c : AgentContext) (h : parsePlanResponse jp text = none) :
    (Planner.createPlan jp u (Except.ok text) goal c).1 =
      Except.error (agentError "Planning failed: Failed to parse plan response") := by
  simp only [Planner.createPlan]
  rw [h]

lemma createPlan_ok_steps_pending (jp : String → Option PlanData) (u : Nat → String)
    (llm : Except String String) (goal : String) (c : AgentContext) (plan : TaskPlan)
    (h : (Planner.createPlan jp u llm goal c).1 = Except.ok plan) :
    ∀ s ∈ plan.steps, s.status = StepStatus.pending := by
  cases llm with
  | error e => simp [Planner.createPlan] at h
  | ok text =>
      simp only [Planner.createPlan] at h
      cases hp : parsePlanResponse jp text with
      | none => rw [hp] at h; simp at h
      | some pd =>
          rw [hp] at h
          simp only [Except.ok.injEq] at h
          subst h
          exact buildSteps_status u pd.steps

lemma createPlan_snd_filesModified (jp : String → Option PlanData) (u : Nat → String)
    (llm : Except String String) (goal : String) (c : AgentContext) :
    (Planner.createPlan jp u llm goal c).2.filesModified = c.filesModified := by
  cases llm with
  | error e => rfl
  | ok text =>
      simp only [Planner.createPlan]
      cases parsePlanResponse jp text <;> rfl

/-! ### Lemmas about finishRun and executeRun -/

lemma finishRun_steps (a : Bool) (plan : TaskPlan) (res : LoopRes) :
    (Agent.finishRun a plan res).steps = res.st.stepsDone ++ res.rem := by
  unfold Agent.finishRun
  split
  · rfl
  · split <;> rfl

lemma finishRun_events (a : Bool) (plan : TaskPlan) (res : LoopRes) :
    (Agent.finishRun a plan res).events = res.st.events := by
  unfold Agent.finishRun
  split
  · rfl
  · split <;> rfl

lemma finishRun_plan (a : Bool) (plan : TaskPlan) (res : LoopRes) :
    (Agent.finishRun a plan res).plan = some plan := by
  unfold Agent.finishRun
  split
  · rfl
  · split <;> rfl

lemma finishRun_completedSteps (a : Bool) (plan : TaskPlan) (res : LoopRes) :
    (Agent.finishRun a plan res).completedSteps = res.st.completedSteps := by
  unfold Agent.finishRun
  split
  · rfl
  · split <;> rfl

lemma finishRun_failedSteps (a : Bool) (plan : TaskPlan) (res : LoopRes) :
    (Agent.finishRun a plan res).failedSteps = res.st.failedSteps := by
  unfold Agent.finishRun
  split
  · rfl
  · split <;> rfl

lemma finishRun_ctx_filesModified (a : Bool) (plan : TaskPlan) (res : LoopRes) :
    (Agent.finishRun a plan res).ctx.filesModified = res.st.ctx.filesModified := by
  unfold Agent.finishRun
  split
  · rfl
  · split <;> rfl

lemma finishRun_error_some (a : Bool) (plan : TaskPlan) (res : LoopRes) (e : MikasaErr)
    (h : res.err = some e) :
    (Agent.finishRun a plan res).error = some e := by
  unfold Agent.finishRun
  split
  · rename_i e' he'
    rw [h] at he'
    injection he' with he''
    rw [he'']
  · rename_i he'
    rw [h] at he'
    cases he'

lemma finishRun_none_auto (plan : TaskPlan) (res : LoopRes) (h : res.err = none) :
    (Agent.finishRun true plan res).error = none ∧
    ∃ t, (Agent.finishRun true plan res).returned = some t ∧
      t.completedSteps = res.st.completedSteps ∧ t.failedSteps = res.st.failedSteps := by
  unfold Agent.finishRun
  split
  · rename_i e' he'
    rw [h] at he'
    cases he'
  · simp only [Bool.not_true, Bool.and_false, if_false]
    exact ⟨rfl, _, rfl, rfl, rfl⟩

end Mikasa

namespace Mikasa

lemma run_planning_error (cfg : AgentConfig) (tools : List Tool)
    (jp : String → Option PlanData) (u : Nat → String) (llm : Except String String)
    (fix : Nat → Option Iterator.FixStrategy) (goal : String) (c0 : AgentContext)
    (e : MikasaErr) (h : (Planner.createPlan jp u llm goal c0).1 = Except.error e) :
    (Agent.executeRun cfg tools jp u llm fix goal).error = some e ∧
    (Agent.executeRun cfg tools jp u llm fix goal).events = [] ∧
    (Agent.executeRun cfg tools jp u llm fix goal).returned = none ∧
    (Agent.executeRun cfg tools jp u llm fix goal).steps = [] ∧
    (Agent.executeRun cfg tools jp u llm fix goal).plan = none ∧
    (Agent.executeRun cfg tools jp u llm fix goal).ctx.filesModified = [] := by
  simp only [Agent.executeRun]
  split
  · rename_i e' ctx' heq
    have h1 : (Planner.createPlan jp u llm goal _).1 = Except.error e' :=
      congrArg Prod.fst heq
    rw [createPlan_fst_ctx_indep jp u llm goal _ c0, h] at h1
    injection h1 with h2
    subst h2
    refine ⟨rfl, rfl, rfl, rfl, rfl, ?_⟩
    have h3 : (Planner.createPlan jp u llm goal _).2 = ctx' := congrArg Prod.snd heq
    rw [addLog_filesModified, ← h3, createPlan_snd_filesModified]
    rfl
  · rename_i plan' ctx' heq
    have h1 : (Planner.createPlan jp u llm goal _).1 = Except.ok plan' :=
      congrArg Prod.fst heq
    rw [createPlan_fst_ctx_indep jp u llm goal _ c0, h] at h1
    cases h1

lemma run_exec (cfg : AgentConfig) (tools : List Tool)
    (jp : String → Option PlanData) (u : Nat → String) (llm : Except String String)
    (fix : Nat → Option Iterator.FixStrategy) (goal : String) (c0 : AgentContext)
    (plan : TaskPlan) (hp : cfg.previewMode = false)
    (h : (Planner.createPlan jp u llm goal c0).1 = Except.ok plan) :
    ∃ st0 : LoopSt,
      Agent.executeRun cfg tools jp u llm fix goal =
        Agent.finishRun cfg.autonomous plan
          (Agent.execLoop cfg.autonomous (jsOrNat cfg.maxIterations DEFAULT_MAX_ITERATIONS)
            DEFAULT_MAX_RETRIES tools fix plan.steps.length plan.steps 0 st0) ∧
      st0.stepsDone = [] ∧ st0.events = [] ∧ st0.completedSteps = [] ∧
      st0.failedSteps = [] ∧ st0.ctx.filesModified = [] ∧
      (∀ s ∈ st0.stepsDone, s.status = StepStatus.completed) ∧
      (∀ e ∈ st0.events, e.idx < 0) := by
  simp only [Agent.executeRun]
  split
  · rename_i e' ctx' heq
    have h1 : (Planner.createPlan jp u llm goal _).1 = Except.error e' :=
      congrArg Prod.fst heq
    rw [createPlan_fst_ctx_indep jp u llm goal _ c0, h] at h1
    cases h1
  · rename_i plan' ctx' heq
    have h1 : (Planner.createPlan jp u llm goal _).1 = Except.ok plan' :=
      congrArg Prod.fst heq
    rw [createPlan_fst_ctx_indep jp u llm goal _ c0, h] at h1
    injection h1 with h2
    subst h2
    rw [hp]
    simp only [if_false, Bool.false_eq_true]
    refine ⟨_, rfl, rfl, rfl, rfl, rfl, ?_, by simp, by simp⟩
    have h3 : (Planner.createPlan jp u llm goal _).2 = ctx' := congrArg Prod.snd heq
    rw [addLog_filesModified, ← h3, createPlan_snd_filesModified]
    rfl

lemma run_preview (cfg : AgentConfig) (tools : List Tool)
    (jp : String → Option PlanData) (u : Nat → String) (llm : Except String String)
    (fix : Nat → Option Iterator.FixStrategy) (goal : String) (c0 : AgentContext)
    (plan : TaskPlan) (hp : cfg.previewMode = true)
    (h : (Planner.createPlan jp u llm goal c0).1 = Except.ok plan) :
    (Agent.executeRun cfg tools jp u llm fix goal).steps = plan.steps ∧
    (Agent.executeRun cfg tools jp u llm fix goal).events = [] ∧
    (Agent.executeRun cfg tools jp u llm fix goal).error = none ∧
    (Agent.executeRun cfg tools jp u llm fix goal).ctx.filesModified = [] := by
  simp only [Agent.executeRun]
  split
  · rename_i e' ctx' heq
    have h1 : (Planner.createPlan jp u llm goal _).1 = Except.error e' :=
      congrArg Prod.fst heq
    rw [createPlan_fst_ctx_indep jp u llm goal _ c0, h] at h1
    cases h1
  · rename_i plan' ctx' heq
    have h1 : (Planner.createPlan jp u llm goal _).1 = Except.ok plan' :=
      congrArg Prod.fst heq
    rw [createPlan_fst_ctx_indep jp u llm goal _ c0, h] at h1
    injection h1 with h2
    subst h2
    rw [hp]
    refine ⟨rfl, rfl, rfl, ?_⟩
    have h3 : (Planner.createPlan jp u llm goal _).2 = ctx' := congrArg Prod.snd heq
    rw [if_pos rfl]
    show (addLog ctx' "info" "Preview mode: returning plan without execution").filesModified = []
    rw [addLog_filesModified, ← h3, createPlan_snd_filesModified]
    rfl

lemma run_plan_inv (cfg : AgentConfig) (tools : List Tool)
    (jp : String → Option PlanData) (u : Nat → String) (llm : Except String String)
    (fix : Nat → Option Iterator.FixStrategy) (goal : String) (c0 : AgentContext)
    (plan : TaskPlan)
    (h : (Agent.executeRun cfg tools jp u llm fix goal).plan = some plan) :
    (Planner.createPlan jp u llm goal c0).1 = Except.ok plan := by
  rw [createPlan_fst_ctx_indep jp u llm goal c0
    (addLog (addLog (createContext goal cfg.workingDirectory) "info"
      "Starting agent execution") "info" "Phase 1: Planning")]
  simp only [Agent.executeRun] at h
  split at h
  · cases h
  · rename_i plan' ctx' heq
    have h1 : (Planner.createPlan jp u llm goal _).1 = Except.ok plan' :=
      congrArg Prod.fst heq
    split at h
    · simp only at h
      injection h with h2
      subst h2
      exact h1
    · rw [finishRun_plan] at h
      injection h with h2
      subst h2
      exact h1

end Mikasa

namespace Mikasa

lemma last_failed_aux (D R S : List PlanStep) (hS : S = D ++ R)
    (hdrop : ∀ s ∈ D.dropLast, s.status = StepStatus.completed)
    (hrem : ∀ s ∈ R, s.status = StepStatus.pending)
    (k : Nat) (hk : k < S.length)
    (hfail : (S.get ⟨k, hk⟩).status = StepStatus.failed) :
    D.length = k + 1 ∧
    ∀ j, k < j → ∀ hj : j < S.length, (S.get ⟨j, hj⟩).status ≠ StepStatus.completed := by
  subst hS
  have hklen : k < D.length := by
    by_contra hge
    push_neg at hge
    have hk2 : k - D.length < R.length := by
      rw [List.length_append] at hk
      omega
    have hget : (D ++ R).get ⟨k, hk⟩ = R.get ⟨k - D.length, hk2⟩ := by
      simp only [List.get_eq_getElem]
      exact List.getElem_append_right hge
    have hmem : R.get ⟨k - D.length, hk2⟩ ∈ R := by
      simp only [List.get_eq_getElem]
      exact List.getElem_mem hk2
    have := hrem _ hmem
    rw [← hget, hfail] at this
    cases this
  have hlast : D.length = k + 1 := by
    by_contra hne
    have hklt : k < D.dropLast.length := by
      rw [List.length_dropLast]
      omega
    have hget : (D ++ R).get ⟨k, hk⟩ = D.dropLast.get ⟨k, hklt⟩ := by
      simp only [List.get_eq_getElem]
      rw [List.getElem_append_left hklen, List.getElem_dropLast]
    have hmem : D.dropLast.get ⟨k, hklt⟩ ∈ D.dropLast := by
      simp only [List.get_eq_getElem]
      exact List.getElem_mem hklt
    have := hdrop _ hmem
    rw [← hget, hfail] at this
    cases this
  refine ⟨hlast, ?_⟩
  intro j hkj hj
  have hjge : D.length ≤ j := by omega
  have hj2 : j - D.length < R.length := by
    rw [List.length_append] at hj
    omega
  have hget : (D ++ R).get ⟨j, hj⟩ = R.get ⟨j - D.length, hj2⟩ := by
    simp only [List.get_eq_getElem]
    exact List.getElem_append_right hjge
  have hmem : R.get ⟨j - D.length, hj2⟩ ∈ R := by
    simp only [List.get_eq_getElem]
    exact List.getElem_mem hj2
  have hpend := hrem _ hmem
  rw [← hget] at hpend
  rw [hpend]
  intro hcontra
  cases hcontra

/-- C2: in a non-autonomous run, if the step at position k ends with
status failed (its retry opportunity exhausted), then no event of the
run — Executor dispatch, retryWithFix call, or retry dispatch — belongs
to any later step index, and no step after position k has status
completed. -/
theorem mikasa_C2_nonautonomous_failure_stops_run
    (cfg : AgentConfig) (tools : List Tool) (jp : String → Option PlanData)
    (u : Nat → String) (llm : Except String String)
    (fix : Nat → Option Iterator.FixStrategy) (goal : String) (k : Nat)
    (hauto : cfg.autonomous = false)
    (hk : k < (Agent.executeRun cfg tools jp u llm fix goal).steps.length)
    (hfail : ((Agent.executeRun cfg tools jp u llm fix goal).steps.get ⟨k, hk⟩).status =
      StepStatus.failed) :
    (∀ e ∈ (Agent.executeRun cfg tools jp u llm fix goal).events, e.idx ≤ k) ∧
    (∀ j, k < j → ∀ hj : j < (Agent.executeRun cfg tools jp u llm fix goal).steps.length,
      ((Agent.executeRun cfg tools jp u llm fix goal).steps.get ⟨j, hj⟩).status ≠
        StepStatus.completed) := by
  cases hllm : (Planner.createPlan jp u llm goal emptyCtx).1 with
  | error e =>
      obtain ⟨-, -, -, hsteps, -, -⟩ :=
        run_planning_error cfg tools jp u llm fix goal emptyCtx e hllm
      rw [hsteps] at hk
      simp at hk
  | ok plan =>
      have hpend := createPlan_ok_steps_pending jp u llm goal emptyCtx plan hllm
      cases hprev : cfg.previewMode with
      | true =>
          obtain ⟨hsteps, hev, -, -⟩ :=
            run_preview cfg tools jp u llm fix goal emptyCtx plan hprev hllm
          exfalso
          have hmem := List.get_mem (Agent.executeRun cfg tools jp u llm fix goal).steps
            k hk
          have hmem2 : (Agent.executeRun cfg tools jp u llm fix goal).steps.get ⟨k, hk⟩ ∈
              plan.steps := by
            rw [← hsteps]
            exact hmem
          have h2 := hpend _ hmem2
          rw [hfail] at h2
          cases h2
      | false =>
          obtain ⟨st0, hout, hd0, he0, -, -, -, hdc, hei⟩ :=
            run_exec cfg tools jp u llm fix goal emptyCtx plan hprev hllm
          rw [hauto] at hout
          have hdrop := loop_nonauto_dropLast
            (jsOrNat cfg.maxIterations DEFAULT_MAX_ITERATIONS) DEFAULT_MAX_RETRIES tools fix
            plan.steps.length plan.steps 0 st0 hdc
          have hlt := loop_idx_lt_done false
            (jsOrNat cfg.maxIterations DEFAULT_MAX_ITERATIONS) DEFAULT_MAX_RETRIES tools fix
            plan.steps.length plan.steps 0 st0 (by rw [hd0]; rfl) hei
          have hremmem := loop_rem_mem false
            (jsOrNat cfg.maxIterations DEFAULT_MAX_ITERATIONS) DEFAULT_MAX_RETRIES tools fix
            plan.steps.length plan.steps 0 st0
          have hrem : ∀ s ∈ (Agent.execLoop false
              (jsOrNat cfg.maxIterations DEFAULT_MAX_ITERATIONS) DEFAULT_MAX_RETRIES tools fix
              plan.steps.length plan.steps 0 st0).rem, s.status = StepStatus.pending :=
            fun s hs => hpend s (hremmem s hs)
          have hsteps : (Agent.executeRun cfg tools jp u llm fix goal).steps =
              (Agent.execLoop false (jsOrNat cfg.maxIterations DEFAULT_MAX_ITERATIONS)
                DEFAULT_MAX_RETRIES tools fix plan.steps.length plan.steps 0 st0).st.stepsDone ++
              (Agent.execLoop false (jsOrNat cfg.maxIterations DEFAULT_MAX_ITERATIONS)
                DEFAULT_MAX_RETRIES tools fix plan.steps.length plan.steps 0 st0).rem := by
            rw [hout, finishRun_steps]
          have hev : (Agent.executeRun cfg tools jp u llm fix goal).events =
              (Agent.execLoop false (jsOrNat cfg.maxIterations DEFAULT_MAX_ITERATIONS)
                DEFAULT_MAX_RETRIES tools fix plan.steps.length plan.steps 0 st0).st.events := by
            rw [hout, finishRun_events]
          obtain ⟨hlen, hafter⟩ := last_failed_aux _ _ _ hsteps hdrop hrem k hk hfail
          constructor
          · intro e he
            rw [hev] at he
            have := hlt e he
            omega
          · exact hafter

end Mikasa

namespace Mikasa

lemma foldl_fileInsert_spec (ps : List String) :
    (ps.foldl fileInsert []).Nodup ∧
    (∀ p, p ∈ ps.foldl fileInsert [] ↔ p ∈ ps) ∧
    (ps.foldl fileInsert []).Sublist ps ∧
    (ps.foldl fileInsert []).Pairwise (fun a b => ps.indexOf a < ps.indexOf b) := by
  induction ps using List.reverseRecOn with
  | nil => simp
  | append_singleton ps p ih =>
      obtain ⟨hnd, hmem, hsub, hpw⟩ := ih
      rw [List.foldl_append, List.foldl_cons, List.foldl_nil]
      by_cases hp : p ∈ ps.foldl fileInsert []
      · rw [show fileInsert (ps.foldl fileInsert []) p = ps.foldl fileInsert [] from
          if_pos hp]
        have hpps : p ∈ ps := (hmem p).mp hp
        refine ⟨hnd, ?_, hsub.trans (List.sublist_append_left ps [p]), ?_⟩
        · intro q
          rw [hmem q, List.mem_append, List.mem_singleton]
          constructor
          · exact fun h => Or.inl h
          · rintro (h | rfl)
            · exact h
            · exact hpps
        · refine hpw.imp_of_mem ?_
          intro a b ha hb hab
          have haps : a ∈ ps := (hmem a).mp ha
          rwa [List.indexOf_append_of_mem haps,
            List.indexOf_append_of_mem ((hmem b).mp hb)]
      · rw [show fileInsert (ps.foldl fileInsert []) p = ps.foldl fileInsert [] ++ [p] from
          if_neg hp]
        have hpps : p ∉ ps := fun h => hp ((hmem p).mpr h)
        refine ⟨?_, ?_, hsub.append (List.Sublist.refl [p]), ?_⟩
        · rw [List.nodup_append]
          refine ⟨hnd, List.nodup_singleton p, ?_⟩
          intro a ha hb
          rw [List.mem_singleton] at hb
          subst hb
          exact hp ha
        · intro q
          simp only [List.mem_append, List.mem_singleton, hmem q]
        · rw [List.pairwise_append]
          refine ⟨?_, List.pairwise_singleton _ _, ?_⟩
          · refine hpw.imp_of_mem ?_
            intro a b ha hb hab
            rwa [List.indexOf_append_of_mem ((hmem a).mp ha),
              List.indexOf_append_of_mem ((hmem b).mp hb)]
          · intro a ha b hb
            rw [List.mem_singleton] at hb
            subst hb
            have haps : a ∈ ps := (hmem a).mp ha
            rw [List.indexOf_append_of_mem haps, List.indexOf_append_of_not_mem hpps]
            have h1 : ps.indexOf a < ps.length := List.indexOf_lt_length.mpr haps
            have h2 : List.indexOf b [b] = 0 := List.indexOf_cons_self b []
            omega

/-- C8: filesModified never contains duplicate paths.  First conjunct:
the context coming out of any complete Agent run has pairwise-distinct
filesModified entries.  Second conjunct: merging any sequence of
reported paths through addFileModified into an empty collection yields a
duplicate-free list that contains exactly the reported paths, is a
subsequence of the reporting sequence, and is ordered by first report
position (first-insertion order). -/
theorem mikasa_C8_filesModified_deduplicated :
    (∀ (cfg : AgentConfig) (tools : List Tool) (jp : String → Option PlanData)
      (u : Nat → String) (llm : Except String String)
      (fix : Nat → Option Iterator.FixStrategy) (goal : String),
      (Agent.executeRun cfg tools jp u llm fix goal).ctx.filesModified.Nodup) ∧
    (∀ ps : List String,
      (ps.foldl fileInsert []).Nodup ∧
      (∀ p, p ∈ ps.foldl fileInsert [] ↔ p ∈ ps) ∧
      (ps.foldl fileInsert []).Sublist ps ∧
      (ps.foldl fileInsert []).Pairwise (fun a b => ps.indexOf a < ps.indexOf b)) := by
  constructor
  · intro cfg tools jp u llm fix goal
    cases hllm : (Planner.createPlan jp u llm goal emptyCtx).1 with
    | error e =>
        obtain ⟨-, -, -, -, -, hfm⟩ :=
          run_planning_error cfg tools jp u llm fix goal emptyCtx e hllm
        rw [hfm]
        exact List.nodup_nil
    | ok plan =>
        cases hprev : cfg.previewMode with
        | true =>
            obtain ⟨-, -, -, hfm⟩ :=
              run_preview cfg tools jp u llm fix goal emptyCtx plan hprev hllm
            rw [hfm]
            exact List.nodup_nil
        | false =>
            obtain ⟨st0, hout, -, -, -, -, hfm0, -, -⟩ :=
              run_exec cfg tools jp u llm fix goal emptyCtx plan hprev hllm
            rw [hout, finishRun_ctx_filesModified]
            exact loop_nodup cfg.autonomous
              (jsOrNat cfg.maxIterations DEFAULT_MAX_ITERATIONS) DEFAULT_MAX_RETRIES tools fix
              plan.steps.length plan.steps 0 st0 (by rw [hfm0]; exact List.nodup_nil)
  · exact foldl_fileInsert_spec

/-- C9: within a single Agent run, retryWithFix is called at most once
per step index, and the Executor runs a step's tool at most twice (the
loop dispatch plus at most one retry dispatch), even though the retry
budget alone would allow three remediation passes. -/
theorem mikasa_C9_retry_at_most_once_per_step
    (cfg : AgentConfig) (tools : List Tool) (jp : String → Option PlanData)
    (u : Nat → String) (llm : Except String String)
    (fix : Nat → Option Iterator.FixStrategy) (goal : String) (j : Nat) :
    (Agent.executeRun cfg tools jp u llm fix goal).events.count (Event.retryCall j) ≤ 1 ∧
    (Agent.executeRun cfg tools jp u llm fix goal).events.count (Event.dispatch j) +
      (Agent.executeRun cfg tools jp u llm fix goal).events.count (Event.retryExec j) ≤ 2 := by
  have hkey : ∀ e : Event,
      (Agent.executeRun cfg tools jp u llm fix goal).events.count e ≤ 1 := by
    intro e
    cases hllm : (Planner.createPlan jp u llm goal emptyCtx).1 with
    | error er =>
        obtain ⟨-, hev, -, -, -, -⟩ :=
          run_planning_error cfg tools jp u llm fix goal emptyCtx er hllm
        rw [hev]
        simp
    | ok plan =>
        cases hprev : cfg.previewMode with
        | true =>
            obtain ⟨-, hev, -, -⟩ :=
              run_preview cfg tools jp u llm fix goal emptyCtx plan hprev hllm
            rw [hev]
            simp
        | false =>
            obtain ⟨st0, hout, -, he0, -, -, -, -, -⟩ :=
              run_exec cfg tools jp u llm fix goal emptyCtx plan hprev hllm
            rw [hout, finishRun_events]
            have := loop_count_le cfg.autonomous
              (jsOrNat cfg.maxIterations DEFAULT_MAX_ITERATIONS) DEFAULT_MAX_RETRIES tools fix
              plan.steps.length plan.steps 0 st0 e
            rw [he0] at this
            simpa using this
  exact ⟨hkey (Event.retryCall j), by
    have h1 := hkey (Event.dispatch j)
    have h2 := hkey (Event.retryExec j)
    omega⟩

end Mikasa

namespace Mikasa

/-- C3 (amended): in autonomous mode, provided the plan's step count
stays within the effective iteration ceiling, the run returns a
TaskExecution; every step index is dispatched exactly once; and the
returned completedSteps and failedSteps partition the plan's stepIds by
count (each stepId of a duplicate-free plan lands in exactly one of the
two lists). -/
theorem mikasa_C3_autonomous_partition
    (cfg : AgentConfig) (tools : List Tool) (jp : String → Option PlanData)
    (u : Nat → String) (llm : Except String String)
    (fix : Nat → Option Iterator.FixStrategy) (goal : String) (plan : TaskPlan)
    (hauto : cfg.autonomous = true) (hprev : cfg.previewMode = false)
    (hplan : (Agent.executeRun cfg tools jp u llm fix goal).plan = some plan)
    (hN : plan.steps.length ≤ jsOrNat cfg.maxIterations DEFAULT_MAX_ITERATIONS) :
    (Agent.executeRun cfg tools jp u llm fix goal).error = none ∧
    ∃ t, (Agent.executeRun cfg tools jp u llm fix goal).returned = some t ∧
      t.completedSteps.length + t.failedSteps.length = plan.steps.length ∧
      (∀ s : String, t.completedSteps.count s + t.failedSteps.count s =
        (plan.steps.map PlanStep.stepId).count s) ∧
      ((plan.steps.map PlanStep.stepId).Nodup →
        ∀ s ∈ plan.steps.map PlanStep.stepId,
          t.completedSteps.count s + t.failedSteps.count s = 1) ∧
      (∀ j, j < plan.steps.length →
        (Agent.executeRun cfg tools jp u llm fix goal).events.count (Event.dispatch j) = 1) := by
  have hcp := run_plan_inv cfg tools jp u llm fix goal emptyCtx plan hplan
  obtain ⟨st0, hout, -, he0, hc0, hf0, -, -, -⟩ :=
    run_exec cfg tools jp u llm fix goal emptyCtx plan hprev hcp
  rw [hauto] at hout
  obtain ⟨herr, hrem, hlen, hcnt, hdisp⟩ := loop_auto_spec
    (jsOrNat cfg.maxIterations DEFAULT_MAX_ITERATIONS) DEFAULT_MAX_RETRIES tools fix
    plan.steps.length plan.steps 0 st0 _ rfl (by omega)
  obtain ⟨herr2, t, hret, htc, htf⟩ := finishRun_none_auto plan _ herr
  have hcnt2 : ∀ s : String, t.completedSteps.count s + t.failedSteps.count s =
      (plan.steps.map PlanStep.stepId).count s := by
    intro s
    have := hcnt s
    rw [hc0, hf0] at this
    rw [htc, htf]
    simpa using this
  refine ⟨by rw [hout]; exact herr2, t, by rw [hout]; exact hret, ?_, hcnt2, ?_, ?_⟩
  · rw [hc0, hf0] at hlen
    rw [htc, htf]
    simpa using hlen
  · intro hnd s hs
    have h1 := hcnt2 s
    have hle := List.nodup_iff_count_le_one.mp hnd s
    have hge : 0 < (plan.steps.map PlanStep.stepId).count s := List.count_pos_iff.mpr hs
    omega
  · intro j hj
    have := hdisp j (by omega) (by omega)
    rw [hout, finishRun_events, this, he0]
    simp

/-- C3 (counterexample to the original claim): an autonomous run of an
eleven-step plan (one more step than the default ceiling of 10) throws
the ceiling AgentError, so no TaskExecution is returned at all — the
claimed unconditional completedSteps/failedSteps partition cannot hold
for every plan. -/
theorem mikasa_C3_counterexample :
    Agent.execute cfgAuto [fileToolOk] cxParse cxUuid (Except.ok plan11Json) noFixOracle
      "refactor" = Except.error (agentError "Maximum iterations (10) exceeded") ∧
    cfgAuto.autonomous = true ∧
    (Agent.executeRun cfgAuto [fileToolOk] cxParse cxUuid (Except.ok plan11Json) noFixOracle
      "refactor").plan = some c11Plan ∧
    c11Plan.steps.length = 11 := by
  refine ⟨by rfl, rfl, by decide, by decide⟩

/-- C3 witness: the amended theorem applied to an autonomous three-step
run whose middle step fails. -/
theorem mikasa_C3_witness :
    c3Run.error = none ∧
    ∃ t, c3Run.returned = some t ∧
      t.completedSteps.length + t.failedSteps.length = c3Plan.steps.length ∧
      (∀ s : String, t.completedSteps.count s + t.failedSteps.count s =
        (c3Plan.steps.map PlanStep.stepId).count s) ∧
      ((c3Plan.steps.map PlanStep.stepId).Nodup →
        ∀ s ∈ c3Plan.steps.map PlanStep.stepId,
          t.completedSteps.count s + t.failedSteps.count s = 1) ∧
      (∀ j, j < c3Plan.steps.length →
        c3Run.events.count (Event.dispatch j) = 1) :=
  mikasa_C3_autonomous_partition cfgAuto [fileToolOk, cmdToolOff] cxParse cxUuid
    (Except.ok plan3Json) noFixOracle "fix the tests" c3Plan rfl rfl (by decide) (by decide)

/-- C7 (amended): when the plan's step count exceeds the effective
ceiling (config.maxIterations or-else 10), the run always aborts with an
AgentError; but because the ceiling check runs after the step body, the
step at index maxIterations is still executed — every recorded event
index stays below maxIterations + 1, not maxIterations. -/
theorem mikasa_C7_ceiling_aborts
    (cfg : AgentConfig) (tools : List Tool) (jp : String → Option PlanData)
    (u : Nat → String) (llm : Except String String)
    (fix : Nat → Option Iterator.FixStrategy) (goal : String) (plan : TaskPlan)
    (hprev : cfg.previewMode = false)
    (hplan : (Agent.executeRun cfg tools jp u llm fix goal).plan = some plan)
    (hN : jsOrNat cfg.maxIterations DEFAULT_MAX_ITERATIONS < plan.steps.length) :
    (∃ e, (Agent.executeRun cfg tools jp u llm fix goal).error = some e ∧
      e.name = "AgentError") ∧
    (∀ ev ∈ (Agent.executeRun cfg tools jp u llm fix goal).events,
      ev.idx < jsOrNat cfg.maxIterations DEFAULT_MAX_ITERATIONS + 1) := by
  have hcp := run_plan_inv cfg tools jp u llm fix goal emptyCtx plan hplan
  obtain ⟨st0, hout, -, he0, -, -, -, -, -⟩ :=
    run_exec cfg tools jp u llm fix goal emptyCtx plan hprev hcp
  constructor
  · obtain ⟨er, herr, hname⟩ := loop_overflow cfg.autonomous
      (jsOrNat cfg.maxIterations DEFAULT_MAX_ITERATIONS) DEFAULT_MAX_RETRIES tools fix
      plan.steps.length plan.steps 0 st0
      (by intro hnil; rw [hnil] at hN; simp at hN) (by omega)
    exact ⟨er, by rw [hout]; exact finishRun_error_some _ _ _ _ herr, hname⟩
  · intro ev hev
    rw [hout, finishRun_events] at hev
    obtain ⟨tl, htl, hb⟩ := loop_events_spec cfg.autonomous
      (jsOrNat cfg.maxIterations DEFAULT_MAX_ITERATIONS) DEFAULT_MAX_RETRIES tools fix
      plan.steps.length plan.steps 0 st0
    rw [htl, he0] at hev
    simp only [List.nil_append] at hev
    have := (hb ev hev).2 (by omega)
    omega

/-- C7 (counterexample to the original claim): on an eleven-step plan
with the default ceiling of 10, the step at index 10 — the eleventh
step, beyond the first maxIterations steps — is still dispatched to the
Executor before the run aborts. -/
theorem mikasa_C7_counterexample :
    Event.dispatch 10 ∈ c11Run.events ∧
    c11Run.error = some (agentError "Maximum iterations (10) exceeded") ∧
    c11Run.plan = some c11Plan ∧
    c11Plan.steps.length = 11 ∧
    jsOrNat cfgNonAuto.maxIterations DEFAULT_MAX_ITERATIONS = 10 := by
  refine ⟨by decide, by decide, by decide, by decide, by decide⟩

/-- C7 witness: the amended theorem applied to the eleven-step run. -/
theorem mikasa_C7_witness :
    (∃ e, c11Run.error = some e ∧ e.name = "AgentError") ∧
    (∀ ev ∈ c11Run.events,
      ev.idx < jsOrNat cfgNonAuto.maxIterations DEFAULT_MAX_ITERATIONS + 1) :=
  mikasa_C7_ceiling_aborts cfgNonAuto [fileToolOk] cxParse cxUuid (Except.ok plan11Json)
    noFixOracle "refactor" c11Plan rfl (by decide) (by decide)

end Mikasa

namespace Mikasa

/-- C2 witness: the theorem applied to a concrete non-autonomous
three-step run whose second step (a command with shell commands
disabled) fails after its remediation pass produces no fix. -/
theorem mikasa_C2_witness :
    (∀ e ∈ c2Run.events, e.idx ≤ 1) ∧
    (∀ j, 1 < j → ∀ hj : j < c2Run.steps.length,
      (c2Run.steps.get ⟨j, hj⟩).status ≠ StepStatus.completed) :=
  mikasa_C2_nonautonomous_failure_stops_run cfgNonAuto [fileToolOk, cmdToolOff] cxParse
    cxUuid (Except.ok plan3Json) noFixOracle "fix the tests" 1 rfl (by decide) (by decide)

/-- C4: after exactly n recorded retryWithFix invocations for a step,
the Iterator's counter for that step reads n, and canRetry answers
precisely whether n is still below maxRetries — true for every n below
maxRetries, false from exactly maxRetries on (the shared default being
DEFAULT_MAX_RETRIES = 3). -/
theorem mikasa_C4_retry_budget (fix : Option Iterator.FixStrategy) (maxR : Nat)
    (step : PlanStep) (failedResult : ToolExecutionResult) (ctx : AgentContext)
    (tools : List Tool) (n : Nat) :
    retryNTimes fix maxR step failedResult ctx tools n step.stepId = n ∧
    Iterator.canRetry maxR (retryNTimes fix maxR step failedResult ctx tools n) step.stepId
      = decide (n < maxR) ∧
    Iterator.canRetry DEFAULT_MAX_RETRIES
      (retryNTimes fix DEFAULT_MAX_RETRIES step failedResult ctx tools DEFAULT_MAX_RETRIES)
      step.stepId = false := by
  have hcount : ∀ (m : Nat) (mr : Nat),
      retryNTimes fix mr step failedResult ctx tools m step.stepId = m := by
    intro m
    induction m with
    | zero => intro mr; rfl
    | succ k ihk =>
        intro mr
        show (Iterator.retryWithFix fix mr
          (retryNTimes fix mr step failedResult ctx tools k) step failedResult ctx
            tools).retryCount step.stepId = k + 1
        rw [retryWithFix_retryCount]
        simp [ihk mr]
  refine ⟨hcount n maxR, ?_, ?_⟩
  · unfold Iterator.canRetry
    rw [hcount n maxR]
  · unfold Iterator.canRetry
    rw [hcount DEFAULT_MAX_RETRIES DEFAULT_MAX_RETRIES]
    decide

/-- C5: Executor.executeStep is total at its boundary.  When no injected
tool matches the step's tool name it returns a Tool-not-found failure
result (with only log side effects) rather than throwing, and when the
matched tool's execute throws, the exception is caught and converted to
a failure result carrying the exception message. -/
theorem mikasa_C5_executor_never_throws (tools : List Tool) (step : PlanStep)
    (ctx : AgentContext) :
    (findTool tools step.tool = none →
      Executor.executeStep tools step ctx =
        ({ success := false, output := "",
           error := some ("Tool not found: " ++ step.tool), metadata := none },
         addLog (addLog ctx "info" ("Executing: " ++ step.description)) "error"
           ("Tool not found: " ++ step.tool))) ∧
    (∀ t msg, findTool tools step.tool = some t →
      t.execute step.params = Except.error msg →
      (Executor.executeStep tools step ctx).1 =
        { success := false, output := "",
          error := some ("Tool execution failed: " ++ msg), metadata := none }) := by
  constructor
  · intro h
    simp only [Executor.executeStep, h]
  · intro t msg h1 h2
    simp only [Executor.executeStep, h1, h2]

/-- C5 witness: the theorem applied to a step naming no injected tool
and to a tool whose execute throws. -/
theorem mikasa_C5_witness :
    Executor.executeStep [cmdToolOn] stepGhost emptyCtx =
      ({ success := false, output := "",
         error := some ("Tool not found: " ++ stepGhost.tool), metadata := none },
       addLog (addLog emptyCtx "info" ("Executing: " ++ stepGhost.description)) "error"
         ("Tool not found: " ++ stepGhost.tool)) ∧
    (Executor.executeStep [throwTool] stepThrow emptyCtx).1 =
      { success := false, output := "",
        error := some ("Tool execution failed: " ++ "kaput"), metadata := none } :=
  ⟨(mikasa_C5_executor_never_throws [cmdToolOn] stepGhost emptyCtx).1 rfl,
   (mikasa_C5_executor_never_throws [throwTool] stepThrow emptyCtx).2 throwTool "kaput"
     rfl rfl⟩

end Mikasa

namespace Mikasa

/-- C6 (counterexample to the original claim): on a malformed,
brace-free completion response, createPlan raises an error whose name
field is AgentError — the code base defines no PlanningError class, so
the raised error is not a PlanningError. -/
theorem mikasa_C6_counterexample :
    (Planner.createPlan cxParse cxUuid (Except.ok "I cannot help with that.")
      "add a LICENSE file" emptyCtx).1 =
      Except.error (agentError "Planning failed: Failed to parse plan response") ∧
    (agentError "Planning failed: Failed to parse plan response").name = "AgentError" ∧
    (agentError "Planning failed: Failed to parse plan response").name ≠ "PlanningError" := by
  refine ⟨by rfl, rfl, by decide⟩

/-- C6 (amended): whenever the completion call throws or its response
survives neither the fence-stripped parse nor the brace-matched
fallback, createPlan throws an AgentError whose message starts with
Planning failed (there is no PlanningError class), and a run whose
planning phase throws performs no Executor dispatch at all and returns
nothing. -/
theorem mikasa_C6_planning_failure_is_agent_error
    (jp : String → Option PlanData) (u : Nat → String) (goal : String)
    (ctx0 : AgentContext) (cfg : AgentConfig) (tools : List Tool)
    (fix : Nat → Option Iterator.FixStrategy) :
    (∀ m, (Planner.createPlan jp u (Except.error m) goal ctx0).1 =
      Except.error (agentError ("Planning failed: " ++ m))) ∧
    (∀ text, parsePlanResponse jp text = none →
      (Planner.createPlan jp u (Except.ok text) goal ctx0).1 =
      Except.error (agentError "Planning failed: Failed to parse plan response")) ∧
    (∀ llm e, (Planner.createPlan jp u llm goal ctx0).1 = Except.error e →
      (Agent.executeRun cfg tools jp u llm fix goal).error = some e ∧
      (Agent.executeRun cfg tools jp u llm fix goal).events = [] ∧
      (Agent.executeRun cfg tools jp u llm fix goal).returned = none) := by
  refine ⟨fun m => createPlan_llm_error jp u m goal ctx0,
    fun text h => createPlan_parse_none jp u text goal ctx0 h, ?_⟩
  intro llm e h
  obtain ⟨h1, h2, h3, -, -, -⟩ := run_planning_error cfg tools jp u llm fix goal ctx0 e h
  exact ⟨h1, h2, h3⟩

/-- C6 witness: the amended theorem applied to a malformed response. -/
theorem mikasa_C6_witness :
    (Planner.createPlan cxParse cxUuid (Except.ok "nope") "g" emptyCtx).1 =
      Except.error (agentError "Planning failed: Failed to parse plan response") ∧
    (Agent.executeRun cfgNonAuto [fileToolOk] cxParse cxUuid (Except.ok "nope")
      noFixOracle "g").error =
      some (agentError "Planning failed: Failed to parse plan response") ∧
    (Agent.executeRun cfgNonAuto [fileToolOk] cxParse cxUuid (Except.ok "nope")
      noFixOracle "g").events = [] ∧
    (Agent.executeRun cfgNonAuto [fileToolOk] cxParse cxUuid (Except.ok "nope")
      noFixOracle "g").returned = none := by
  have thm := mikasa_C6_planning_failure_is_agent_error cxParse cxUuid "g" emptyCtx
    cfgNonAuto [fileToolOk] noFixOracle
  have hparse : (Planner.createPlan cxParse cxUuid (Except.ok "nope") "g" emptyCtx).1 =
      Except.error (agentError "Planning failed: Failed to parse plan response") :=
    thm.2.1 "nope" (by rfl)
  obtain ⟨h1, h2, h3⟩ := thm.2.2 (Except.ok "nope")
    (agentError "Planning failed: Failed to parse plan response") hparse
  exact ⟨hparse, h1, h2, h3⟩

/-- C10: side-effect bookkeeping is merged only for successful results.
For every failed tool result — even one whose metadata carries a command
record, as the CommandTool's failures do — executeStep leaves
filesModified and commandsRun untouched and appends exactly the entry
log and failure log entries; and the CommandTool's denylist failure
indeed returns success false with metadata carrying the command. -/
theorem mikasa_C10_failed_results_not_tracked :
    (∀ (tools : List Tool) (step : PlanStep) (ctx : AgentContext) (t : Tool)
      (result : ToolExecutionResult),
      findTool tools step.tool = some t → t.execute step.params = Except.ok result →
      result.success = false →
      (Executor.executeStep tools step ctx).2.filesModified = ctx.filesModified ∧
      (Executor.executeStep tools step ctx).2.commandsRun = ctx.commandsRun ∧
      (Executor.executeStep tools step ctx).2.logs = ctx.logs ++
        [{ level := "info", message := "Executing: " ++ step.description },
         { level := "error", message := "Step failed: " ++ step.description }] ∧
      (Executor.executeStep tools step ctx).1 = result) ∧
    (∀ (execA : String → String → Except ExecErr ExecOk) (baseDir : String)
      (params : Params) (cmd : String),
      params.command = some cmd → isDangerousCommand cmd = true →
      CommandTool.execute true execA baseDir params =
        { success := false, output := "\n",
          error := some ("Command blocked for safety: " ++ cmd),
          metadata := some { command := some cmd, exitCode := some 1,
                             stdout := some "", stderr := some "",
                             duration := some 0 } }) := by
  constructor
  · intro tools step ctx t result h1 h2 hs
    simp [Executor.executeStep, h1, h2, hs, addLog]
  · intro execA baseDir params cmd hcmd hdang
    simp only [CommandTool.execute, hcmd, Option.getD_some, Bool.not_true,
      Bool.false_eq_true, if_false, hdang, if_true]

/-- C10 witness: the theorem applied to a concrete dangerous command
step run through the enabled CommandTool. -/
theorem mikasa_C10_witness :
    ((Executor.executeStep [cmdToolOn] stepDanger emptyCtx).2.filesModified =
      emptyCtx.filesModified ∧
     (Executor.executeStep [cmdToolOn] stepDanger emptyCtx).2.commandsRun =
      emptyCtx.commandsRun ∧
     (Executor.executeStep [cmdToolOn] stepDanger emptyCtx).2.logs = emptyCtx.logs ++
       [{ level := "info", message := "Executing: " ++ stepDanger.description },
        { level := "error", message := "Step failed: " ++ stepDanger.description }] ∧
     (Executor.executeStep [cmdToolOn] stepDanger emptyCtx).1 =
       CommandTool.execute true execNever "" stepDanger.params) ∧
    CommandTool.execute true execNever "" stepDanger.params =
      { success := false, output := "\n",
        error := some ("Command blocked for safety: " ++ "shutdown"),
        metadata := some { command := some "shutdown", exitCode := some 1,
                           stdout := some "", stderr := some "",
                           duration := some 0 } } :=
  ⟨(mikasa_C10_failed_results_not_tracked).1 [cmdToolOn] stepDanger emptyCtx cmdToolOn
     (CommandTool.execute true execNever "" stepDanger.params) rfl rfl (by decide),
   (mikasa_C10_failed_results_not_tracked).2 execNever "" stepDanger.params "shutdown"
     rfl (by decide)⟩

/-- C1 (code evaluated at the failing input): the preview run stores
plan A (one step, description A) for approval; the apply call then runs
a fresh Agent whose internal Planner.createPlan round trip yields plan B,
and the steps the apply phase dispatches are plan B's — while the task's
displayed result still shows the approved plan A.  The plan executed on
apply is therefore not the plan object the user approved. -/
theorem mikasa_C1_apply_regenerates_plan :
    c1Preview.status = "completed" ∧
    c1Preview.result.bind (fun r => r.plan) = some c1PlanA ∧
    c1Apply.2.map (fun r => r.plan) = some (some c1PlanB) ∧
    c1Apply.2.map (fun r => r.events) = some [Event.dispatch 0] ∧
    c1Apply.1.result.bind (fun r => r.plan) = some c1PlanA ∧
    c1PlanA ≠ c1PlanB := by
  refine ⟨by rfl, by decide, by decide, by decide, by decide, by decide⟩

end Mikasa
